import Mathlib

/-!
setfromenv: setting unset flags from environment variables

A shallow embedding of `setfromenv.go` (package `setfromenv`) and of the parts of
Go's `strings`, `flag` and `os` packages that it calls.

* Go strings are modelled as Lean strings, that is as sequences of runes: the
  strings are valid UTF-8, on which the byte-wise `strings.HasSuffix` and
  `strings.ReplaceAll` agree with their rune-wise reading.
* The rune table behind `strings.ToUpper` (`unicode.ToUpper`) is not part of the
  repository; it is a parameter `up : Char → Char` of the development.
* The process environment read by `os.LookupEnv` is a parameter
  `env : String → Option String`.
* The order in which Go ranges over a map is unspecified; it is a parameter
  `iter : List String → List String`, constrained to return a permutation of the keys.
* A `flag.FlagSet` is a record of the `formal` map, the `actual` map and the
  `parsed` bit, together with the variables that the flags of the set point to. A
  flag holds the address of its variable, which it may share with other flags (as
  after `fs.StringVar(&x, "g", ...)` and `fs.StringVar(&x, "gopher_type", ...)`), and
  its `Value.Set` method.
-/

namespace Setfromenv

/-! ## Go's `strings` package -/

/-- Go `strings.HasSuffix(s, suffix)`:
`len(s) >= len(suffix) && s[len(s)-len(suffix):] == suffix`. -/
def HasSuffix (s suffix : String) : Bool :=
  decide (suffix.data.length ≤ s.data.length) &&
    decide (s.data.drop (s.data.length - suffix.data.length) = suffix.data)

/-- The scanning loop of Go `strings.Replace(s, old, new, -1)` for a non-empty `old`:
left to right, every non-overlapping occurrence of `old` is replaced by `new`.
`skip` counts the runes of a matched occurrence that are still to be passed over. -/
def replaceLoop (old new : List Char) : Nat → List Char → List Char
  | _, [] => []
  | skip + 1, _ :: cs => replaceLoop old new skip cs
  | 0, c :: cs =>
    if old.isPrefixOf (c :: cs) then new ++ replaceLoop old new (old.length - 1) cs
    else c :: replaceLoop old new 0 cs

/-- Go `strings.ReplaceAll(s, old, new)`. For an empty `old` Go inserts `new` before
every rune and at the end of the string. -/
def ReplaceAll (s old new : String) : String :=
  if old.data = [] then ⟨new.data ++ s.data.flatMap (fun c => c :: new.data)⟩
  else ⟨replaceLoop old.data new.data 0 s.data⟩

/-- Go `strings.ToUpper(s)`: every rune is mapped through `unicode.ToUpper`,
here the parameter `up`. -/
def ToUpper (up : Char → Char) (s : String) : String :=
  ⟨s.data.map up⟩

/-! ## `EnvVarNameFromPrefix` -/

/-- The first statement of `EnvVarNameFromPrefix`: a trailing `_` is added to a
non-empty prefix that does not end in one. -/
def addTrailing (pfx : String) : String :=
  if pfx ≠ "" ∧ ¬ HasSuffix pfx "_" = true then pfx ++ "_" else pfx

/-- The closure returned by `EnvVarNameFromPrefix`, over the captured prefix. -/
def makeEnvName (up : Char → Char) (captured : String) (flagName : String) : String :=
  let envName := captured ++ flagName
  let envName := ReplaceAll envName "-" "_"
  let envName := ToUpper up envName
  envName

/-- Source function `EnvVarNameFromPrefix(prefix) func(string) string`. -/
def EnvVarNameFromPrefix (up : Char → Char) (pfx : String) : String → String :=
  makeEnvName up (addTrailing pfx)

/-! ## Go's `flag` and `os` packages -/

/-- The Go `error` values that occur in the program. `E` is the type of the errors
returned by the `Value.Set` methods of the registered flags. -/
inductive GoError (E : Type) where
  /-- An error returned by a flag's `Value.Set`, passed on unchanged by `FlagSet.Set`. -/
  | ofValue (e : E) : GoError E
  /-- `fmt.Errorf("no such flag -%v", name)` of `FlagSet.Set`. -/
  | noSuchFlag (name : String) : GoError E
  /-- `fmt.Errorf("unable to set flag %q from environment variable %q: %w", ...)`. -/
  | unableToSet (flagName envName : String) (err : GoError E) : GoError E
  /-- `errors.New("command-line arguments not yet parsed, ...")`. -/
  | notParsed : GoError E
  deriving DecidableEq

/-- The method `Error() string`. `quote` is `strconv.Quote` (the verb `%q`) and `msg`
renders the errors of the `Value.Set` methods. -/
def GoError.Error {E : Type} (quote : String → String) (msg : E → String) :
    GoError E → String
  | .ofValue e => msg e
  | .noSuchFlag name => "no such flag -" ++ name
  | .unableToSet flagName envName err =>
    "unable to set flag " ++ quote flagName ++ " from environment variable " ++
      quote envName ++ ": " ++ GoError.Error quote msg err
  | .notParsed =>
    "command-line arguments not yet parsed, flag.Parse() should be called first"

/-- A `flag.Flag`: its name, the address of the variable that its `Value` points to,
and the method `Value.Set(string) error`. As with the setters of the `flag` package,
which parse the string, store the result through the pointer and return the parse
error, the error is a function of the string; what is stored may depend on what the
variable held. -/
structure Flag (V E : Type) where
  Name : String
  ptr : Nat
  valueSet : String → (V → V) × Option E

/-- A `flag.FlagSet`: the `parsed` bit, the keys of the `actual` map (the flags that
have been set), the flags of the `formal` map (all defined flags), and the variables
that the flags point to, by address. -/
structure FlagSet (V E : Type) where
  parsed : Bool
  actual : List String
  formal : List (Flag V E)
  vars : Nat → V

/-- Go's `<` on strings, lexicographic. -/
def runesLess : List Char → List Char → Bool
  | _, [] => false
  | [], _ :: _ => true
  | a :: as, b :: bs =>
    decide (a.toNat < b.toNat) || (decide (a.toNat = b.toNat) && runesLess as bs)

/-- The map index expression `formal[name]`. -/
def lookupFlag {V E : Type} (name : String) : List (Flag V E) → Option (Flag V E)
  | [] => none
  | f :: rest => if f.Name = name then some f else lookupFlag name rest

/-- The assignment `*p = v` to the variable at address `p`. -/
def store {V : Type} (vars : Nat → V) (p : Nat) (v : V) : Nat → V :=
  fun q => if q = p then v else vars q

/-- A Go `map[string]struct{}` is a list of keys; this is `m[k] = struct{}{}`. -/
def mapAdd (m : List String) (k : String) : List String :=
  if k ∈ m then m else m ++ [k]

/-- The builtin `delete(m, k)` on a `map[string]struct{}`. -/
def mapDelete (m : List String) (k : String) : List String :=
  m.filter (fun x => decide (x ≠ k))

/-- Go `sortFlags`: the flags of a map in lexicographical order of their names. -/
def sortFlags {V E : Type} (flags : List (Flag V E)) : List (Flag V E) :=
  flags.insertionSort (fun a b => runesLess b.Name.data a.Name.data = false)

/-- The flags held by the `actual` map: `actual[name]` is the pointer `formal[name]`. -/
def actualFlags {V E : Type} (fs : FlagSet V E) : List (Flag V E) :=
  fs.actual.filterMap (fun name => lookupFlag name fs.formal)

/-- Go `(*FlagSet).VisitAll(fn)`, the callback threading its captured state. -/
def FlagSet.VisitAll {V E σ : Type} (fs : FlagSet V E) (fn : σ → Flag V E → σ)
    (captured : σ) : σ :=
  (sortFlags fs.formal).foldl fn captured

/-- Go `(*FlagSet).Visit(fn)`: only the flags that have been set. -/
def FlagSet.Visit {V E σ : Type} (fs : FlagSet V E) (fn : σ → Flag V E → σ)
    (captured : σ) : σ :=
  (sortFlags (actualFlags fs)).foldl fn captured

/-- Go `(*FlagSet).Set(name, value)`: an undefined flag is an error; otherwise the
flag's `Value.Set` runs on the flag's variable, its error is returned as it is, and
only when there is none the flag is entered into `actual`. -/
def FlagSet.Set {V E : Type} (fs : FlagSet V E) (name value : String) :
    FlagSet V E × Option (GoError E) :=
  match lookupFlag name fs.formal with
  | none => (fs, some (.noSuchFlag name))
  | some flag =>
    match flag.valueSet value with
    | (w, some e) =>
      ({ fs with vars := store fs.vars flag.ptr (w (fs.vars flag.ptr)) },
        some (.ofValue e))
    | (w, none) =>
      ({ fs with vars := store fs.vars flag.ptr (w (fs.vars flag.ptr)),
                 actual := mapAdd fs.actual name }, none)

/-- What a call does to its surroundings, in order. -/
inductive Event where
  /-- A call `os.LookupEnv(key)`. -/
  | LookupEnv (key : String) : Event
  /-- A call `fs.Set(name, value)`. -/
  | SetFlag (name value : String) : Event
  deriving DecidableEq

/-- The result of a call: the flag set it leaves, the calls it made, and the returned
`error` (`none` is Go's `nil`). -/
structure Outcome (V E : Type) where
  fs : FlagSet V E
  trace : List Event
  err : Option (GoError E)

/-- Put the events of the iterations already run in front of an outcome. -/
def Outcome.after {V E : Type} (evs : List Event) (r : Outcome V E) : Outcome V E :=
  { r with trace := evs ++ r.trace }

/-! ## `SetFlagsInFlagSet` and `SetFlags` -/

/-- The loop `for flagName := range unset` of `SetFlagsInFlagSet`, over the keys in
the order in which the range statement yields them. -/
def rangeUnset {V E : Type} (env : String → Option String) (makeEnvName : String → String) :
    List String → FlagSet V E → Outcome V E
  | [], fs => ⟨fs, [], none⟩
  | flagName :: rest, fs =>
    let envName := makeEnvName flagName
    match env envName with
    | none => (rangeUnset env makeEnvName rest fs).after [.LookupEnv envName]
    | some value =>
      match fs.Set flagName value with
      | (fs1, some err) =>
        ⟨fs1, [.LookupEnv envName, .SetFlag flagName value],
          some (.unableToSet flagName envName err)⟩
      | (fs1, none) =>
        (rangeUnset env makeEnvName rest fs1).after
          [.LookupEnv envName, .SetFlag flagName value]

/-- The set of unset flag names that `SetFlagsInFlagSet` builds: every name of
`VisitAll` is added, then every name of `Visit` is deleted. -/
def unset {V E : Type} (fs : FlagSet V E) : List String :=
  let unset : List String := []
  let unset := fs.VisitAll (fun unset f => mapAdd unset f.Name) unset
  let unset := fs.Visit (fun unset f => mapDelete unset f.Name) unset
  unset

/-- Source function `SetFlagsInFlagSet(fs, prefix) error`. `iter` is the order in
which the range statement yields the keys of a map. -/
def SetFlagsInFlagSet {V E : Type} (up : Char → Char) (env : String → Option String)
    (iter : List String → List String) (fs : FlagSet V E) (pfx : String) : Outcome V E :=
  let makeEnvName := EnvVarNameFromPrefix up pfx
  rangeUnset env makeEnvName (iter (unset fs)) fs

/-- Source function `SetFlags(prefix) error`, on the package variable
`flag.CommandLine`. -/
def SetFlags {V E : Type} (up : Char → Char) (env : String → Option String)
    (iter : List String → List String) (CommandLine : FlagSet V E) (pfx : String) :
    Outcome V E :=
  if !CommandLine.parsed then ⟨CommandLine, [], some .notParsed⟩
  else SetFlagsInFlagSet up env iter CommandLine pfx

/-- The current value of the flag `name`, if it is defined: the content of the
variable that the flag points to. -/
def FlagSet.valueOf {V E : Type} (fs : FlagSet V E) (name : String) : Option V :=
  (lookupFlag name fs.formal).map (fun f => fs.vars f.ptr)

/-- Whether the flag `name` has been set: `name` is a key of `actual`. -/
def FlagSet.isSet {V E : Type} (fs : FlagSet V E) (name : String) : Bool :=
  decide (name ∈ fs.actual)

/-- The flag `name` has its variable to itself among the flags that a call can set:
no other flag that is not explicitly set and whose derived environment variable is
present points to the same variable. -/
def ownStorage {V E : Type} (env : String → Option String) (makeEnvName : String → String)
    (fs : FlagSet V E) (name : String) : Bool :=
  match lookupFlag name fs.formal with
  | none => true
  | some f =>
    fs.formal.all (fun g =>
      decide (g.Name = name) || fs.isSet g.Name ||
        (env (makeEnvName g.Name)).isNone || decide (g.ptr ≠ f.ptr))

/-! ## The builtin flag types used by the tests -/

/-- The values of the flag types `string` and `int`. -/
inductive GoValue where
  | string (s : String) : GoValue
  | int (i : Int) : GoValue
  deriving DecidableEq

/-- The errors of the numeric flag types: `errParse` and `errRange`. -/
inductive FlagError where
  | errParse : FlagError
  | errRange : FlagError
  deriving DecidableEq

/-- Method `(*stringValue).Set`: `*s = stringValue(val); return nil`. -/
def stringValue_Set (val : String) : (GoValue → GoValue) × Option FlagError :=
  (fun _ => .string val, none)

/-- The value of a digit of `strconv.ParseUint`: `c - '0'` for `0`..`9` and
`lower(c) - 'a' + 10` for a letter; any other byte is a syntax error. -/
def digitOf (c : Char) : Option Nat :=
  if 48 ≤ c.toNat ∧ c.toNat ≤ 57 then some (c.toNat - 48)
  else if 97 ≤ c.toNat ∧ c.toNat ≤ 122 then some (c.toNat - 97 + 10)
  else if 65 ≤ c.toNat ∧ c.toNat ≤ 90 then some (c.toNat - 65 + 10)
  else none

/-- Go `lower(c) == l` for a small letter `l`, where `lower(c) = c | ('x' - 'X')`. -/
def lowerIs (c l : Char) : Bool :=
  decide (c = l) || decide (c.toNat + 32 = l.toNat)

/-- The digit loop of `strconv.ParseUint` with `base0` and bit size 64: the number so
far, whether an underscore was seen, and the result when the loop returns early. -/
def scanDigits (base : Nat) : List Char → Nat → Bool → (Nat × Option FlagError) × Bool
  | [], n, underscores => ((n, none), underscores)
  | c :: cs, n, underscores =>
    if c = '_' then scanDigits base cs n true
    else
      match digitOf c with
      | none => ((0, some .errParse), underscores)
      | some d =>
        if base ≤ d then ((0, some .errParse), underscores)
        else if (2 ^ 64 - 1) / base + 1 ≤ n then ((2 ^ 64 - 1, some .errRange), underscores)
        else if 2 ^ 64 - 1 < n * base + d then ((2 ^ 64 - 1, some .errRange), underscores)
        else scanDigits base cs (n * base + d) underscores

/-- The loop of `strconv.underscoreOK`; `saw` is the last character class seen. -/
def underscoreLoop (hex : Bool) : List Char → Char → Bool
  | [], saw => decide (saw ≠ '_')
  | c :: cs, saw =>
    if (48 ≤ c.toNat ∧ c.toNat ≤ 57) ∨
        (hex = true ∧ ((97 ≤ c.toNat ∧ c.toNat ≤ 102) ∨ (65 ≤ c.toNat ∧ c.toNat ≤ 70))) then
      underscoreLoop hex cs '0'
    else if c = '_' then
      if saw ≠ '0' then false else underscoreLoop hex cs '_'
    else if saw = '_' then false
    else underscoreLoop hex cs '!'

/-- Go `strconv.underscoreOK`: underscores must separate digits, or the base prefix
and a digit. -/
def underscoreOK (s : List Char) : Bool :=
  let s :=
    match s with
    | '-' :: t => t
    | '+' :: t => t
    | t => t
  match s with
  | '0' :: c :: t =>
    if lowerIs c 'b' || lowerIs c 'o' || lowerIs c 'x' then
      underscoreLoop (lowerIs c 'x') t '0'
    else underscoreLoop false s '^'
  | t => underscoreLoop false t '^'

/-- Go `strconv.ParseUint(s, 0, 64)`, with `ErrSyntax` and `ErrRange` already mapped
to the flag package's `errParse` and `errRange`. -/
def parseUint (s : List Char) : Nat × Option FlagError :=
  match s with
  | [] => (0, some .errParse)
  | c0 :: _ =>
    let (base, digits) :=
      if c0 = '0' then
        match s with
        | _ :: c1 :: _ :: _ =>
          if lowerIs c1 'b' then (2, s.drop 2)
          else if lowerIs c1 'o' then (8, s.drop 2)
          else if lowerIs c1 'x' then (16, s.drop 2)
          else (8, s.drop 1)
        | _ => (8, s.drop 1)
      else (10, s)
    match scanDigits base digits 0 false with
    | ((n, some e), _) => (n, some e)
    | ((n, none), underscores) =>
      if underscores && !underscoreOK s then (0, some .errParse) else (n, none)

/-- Go `strconv.ParseInt(s, 0, 64)` followed by the flag package's `numError`: a
string that is not a numeral gives `0` and `errParse`, a numeral out of range gives
the nearest bound and `errRange`. -/
def parseInt (s : String) : Int × Option FlagError :=
  match s.data with
  | [] => (0, some .errParse)
  | c0 :: rest =>
    let neg := decide (c0 = '-')
    let digits := if c0 = '+' ∨ c0 = '-' then rest else s.data
    match parseUint digits with
    | (_, some .errParse) => (0, some .errParse)
    | (un, _) =>
      if !neg && decide (2 ^ 63 ≤ un) then ((2 ^ 63 : Int) - 1, some .errRange)
      else if neg && decide (2 ^ 63 < un) then (-(2 ^ 63 : Int), some .errRange)
      else if neg then (-(un : Int), none)
      else ((un : Int), none)

/-- Method `(*intValue).Set`, where `strconv.IntSize` is 64:
`v, err := strconv.ParseInt(s, 0, strconv.IntSize); if err != nil { err = numError(err) };
*i = intValue(v); return err`. The parsed value is stored also when there is an error. -/
def intValue_Set (s : String) : (GoValue → GoValue) × Option FlagError :=
  let (v, err) := parseInt s
  (fun _ => .int v, err)

/-- The flag that `fs.StringVar(p, name, value, usage)` defines. -/
def stringFlag (p : Nat) (name : String) : Flag GoValue FlagError :=
  ⟨name, p, stringValue_Set⟩

/-- The flag that `fs.IntVar(p, name, value, usage)` defines. -/
def intFlag (p : Nat) (name : String) : Flag GoValue FlagError :=
  ⟨name, p, intValue_Set⟩

/-- Go `flag.NewFlagSet`: no flag is defined. -/
def NewFlagSet : FlagSet GoValue FlagError :=
  ⟨false, [], [], fun _ => .int 0⟩

/-- Go `fs.StringVar(p, name, value, usage)`: the default is stored in the variable
and the flag is entered into `formal`. `fs.String(name, value, usage)` is the same on
a fresh variable. Go panics when a name is defined twice; the flag sets below define
every name once. -/
def FlagSet.StringVar (fs : FlagSet GoValue FlagError) (p : Nat) (name value : String) :
    FlagSet GoValue FlagError :=
  { fs with formal := fs.formal ++ [stringFlag p name],
            vars := store fs.vars p (.string value) }

/-- Go `fs.IntVar(p, name, value, usage)`; `fs.Int(name, value, usage)` is the same on
a fresh variable. -/
def FlagSet.IntVar (fs : FlagSet GoValue FlagError) (p : Nat) (name : String)
    (value : Int) : FlagSet GoValue FlagError :=
  { fs with formal := fs.formal ++ [intFlag p name],
            vars := store fs.vars p (.int value) }

/-- An environment given by its list of `KEY=value` pairs. -/
def environ (vars : List (String × String)) (key : String) : Option String :=
  vars.lookup key

/-! ## The flag sets and environments of the tests -/

/-- The environment of `TestSetFlagsInFlagSetIgnoreSetFlags` and of
`TestSetFlagsInFlagSetError`. -/
def envOverride : String → Option String :=
  environ [("OVERRIDEFROMENVTEST_TEST", "override")]

/-- The flag set of `TestSetFlagsInFlagSetIgnoreSetFlags`: the string flag `test`
with default `default`, then `fs.Set("test", "newvalue")`. -/
def fsIgnoreSetFlags : FlagSet GoValue FlagError :=
  ((NewFlagSet.StringVar 0 "test" "default").Set "test" "newvalue").1

/-- The flag set of `TestSetFlagsInFlagSetError` with an `int` flag in the place of
the `float64` flag: one unset numeric flag `test` with default `1`. -/
def fsError : FlagSet GoValue FlagError :=
  NewFlagSet.IntVar 0 "test" 1

/-- Flags of `TestSetFlagsInFlagSetUnsetFlags` and of
`TestSetFlagsInFlagSetUnsetFlagsNormalizeKey`, each on a variable of its own. -/
def fsUnsetFlags : FlagSet GoValue FlagError :=
  ((NewFlagSet.IntVar 0 "inttest" 1).IntVar 1 "int-64-test" 1).StringVar 2
    "string-test" "default"

/-- The variables that those two tests set for these flags. -/
def envUnsetFlags : String → Option String :=
  environ [("OVERRIDEFROMENVTEST_INTTEST", "2"), ("OVERRIDEFROMENVTEST_INT_64_TEST", "2"),
    ("OVERRIDEFROMENVTEST_STRING_TEST", "newvalue")]

/-- The flag set of `ExampleSetFlagsInFlagSet` after `fs.Parse([]string{"-port=7777"})`. -/
def fsExample : FlagSet GoValue FlagError :=
  let fs := ((NewFlagSet.StringVar 0 "host" "localhost").IntVar 1 "port" 8080).StringVar 2
    "config-file" "config.toml"
  { (fs.Set "port" "7777").1 with parsed := true }

/-- The environment that `TestMain` prepares for the example. -/
def envExample : String → Option String :=
  environ [("APP_PORT", "9090"), ("APP_CONFIG_FILE", "my-config.toml")]

/-! ## Further flag sets and environments -/

/-- Three unset flags on three variables: the string flags `alpha` and `zone` around
the int flag `count`. -/
def fsStop : FlagSet GoValue FlagError :=
  ((NewFlagSet.StringVar 0 "alpha" "anon").IntVar 1 "count" 1).StringVar 2 "zone" "utc"

/-- Variables for the three flags; `many` is not a number. -/
def envStop : String → Option String :=
  environ [("ALPHA", "bob"), ("COUNT", "many"), ("ZONE", "cet")]

/-- Two distinct unset string flags whose names differ in `-` and `_` only. -/
def fsCollide : FlagSet GoValue FlagError :=
  (NewFlagSet.StringVar 0 "log-level" "info").StringVar 1 "log_level" "warn"

/-- The one variable that both of these flags read. -/
def envCollide : String → Option String :=
  environ [("LOG_LEVEL", "debug")]

/-- A flag and its shorthand on one variable, as the `flag` package documents it:
`fs.StringVar(&gopherType, "gopher_type", "pocket", usage)` and
`fs.StringVar(&gopherType, "g", "pocket", usage)`. -/
def fsGopher : FlagSet GoValue FlagError :=
  (NewFlagSet.StringVar 0 "gopher_type" "pocket").StringVar 0 "g" "pocket"

/-- The same flag set after the command line `-g=cli` has been parsed. -/
def fsGopherCli : FlagSet GoValue FlagError :=
  { (fsGopher.Set "g" "cli").1 with parsed := true }

/-- An environment with a variable for the long flag only. -/
def envGopher : String → Option String :=
  environ [("GOPHER_TYPE", "fromenv")]

/-- An environment with different variables for the flag and its shorthand. -/
def envGopherBoth : String → Option String :=
  environ [("G", "short"), ("GOPHER_TYPE", "long")]

/-- The flag and its shorthand, and an int flag `n` on a variable of its own. -/
def fsGopherCount : FlagSet GoValue FlagError :=
  fsGopher.IntVar 1 "n" 3

/-- Variables for all three flags; `bad` is not a number. -/
def envGopherCount : String → Option String :=
  environ [("G", "short"), ("GOPHER_TYPE", "long"), ("N", "bad")]

/-- Two unset int flags on two variables. -/
def fsTwoBad : FlagSet GoValue FlagError :=
  (NewFlagSet.IntVar 0 "a" 1).IntVar 1 "b" 2

/-- Variables for both; neither is a number. -/
def envTwoBad : String → Option String :=
  environ [("A", "x"), ("B", "y")]

/-! ## The naming convention as the specification words it -/

/-- The specification's `P'`: `P ++ "_"` when `P` is non-empty and its last rune is
not `_`, and `P` otherwise. -/
def specNormalize (P : String) : String :=
  if P.data ≠ [] ∧ P.data.getLast? ≠ some '_' then ⟨P.data ++ ['_']⟩ else P

/-- The specification's `replaceAll(raw, "-", "_")`: every `-` becomes `_`. -/
def specHyphens (raw : String) : String :=
  ⟨raw.data.map (fun c => if c = '-' then '_' else c)⟩

/-- The specification's `uppercase`: rune by rune. -/
def specUpper (up : Char → Char) (raw : String) : String :=
  ⟨raw.data.map up⟩

/-- The specification's `envName = uppercase(replaceAll(P' + F, "-", "_"))`. -/
def specEnvName (up : Char → Char) (P F : String) : String :=
  specUpper up (specHyphens ⟨(specNormalize P).data ++ F.data⟩)

/-- The specification's set of unset flag names: all registered names minus the
names explicitly set. -/
def specUnset {V E : Type} (fs : FlagSet V E) : List String :=
  (fs.formal.map (fun f => f.Name)).filter (fun name => decide (name ∉ fs.actual))

/-- Two strings that differ only in letter case: they have the same length and, rune
by rune, are equal or are two runes other than `-` and `_` with the same upper case. -/
def caseVariant (up : Char → Char) : List Char → List Char → Bool
  | [], [] => true
  | c :: cs, d :: ds =>
    (decide (c = d) ||
      (decide (up c = up d) && decide (c ≠ '-') && decide (c ≠ '_') &&
        decide (d ≠ '-') && decide (d ≠ '_'))) && caseVariant up cs ds
  | _, _ => false

/-! ## Letter case in Latin-1 -/

/-- Go `unicode.ToUpper` on the runes up to U+00FF: the letters `a`..`z`, the
letters U+00E0..U+00FE other than the division sign U+00F7, the micro sign U+00B5
(to U+039C) and U+00FF (to U+0178) have an upper case; the sharp s U+00DF has none.
Runes above U+00FF are left as they are here. -/
def toUpperLatin1 (c : Char) : Char :=
  if 97 ≤ c.toNat ∧ c.toNat ≤ 122 then Char.ofNat (c.toNat - 32)
  else if c.toNat = 181 then Char.ofNat 924
  else if (224 ≤ c.toNat ∧ c.toNat ≤ 246) ∨ (248 ≤ c.toNat ∧ c.toNat ≤ 254) then
    Char.ofNat (c.toNat - 32)
  else if c.toNat = 255 then Char.ofNat 376
  else c

/-- Go `unicode.IsLower` on the runes up to U+00FF: the lowercase letters are
`a`..`z`, U+00B5, and U+00DF..U+00FF other than U+00F7. -/
def isLowerLatin1 (c : Char) : Bool :=
  decide (97 ≤ c.toNat ∧ c.toNat ≤ 122) || decide (c.toNat = 181) ||
    decide (223 ≤ c.toNat ∧ c.toNat ≤ 246) || decide (248 ≤ c.toNat ∧ c.toNat ≤ 255)

/-! ## Lemmas on the string functions -/

theorem drop_pred_length_concat (l : List Char) (a : Char) :
    (l ++ [a]).drop ((l ++ [a]).length - 1) = [a] := by
  simp

theorem HasSuffix_underscore (s : String) :
    HasSuffix s "_" = true ↔ s.data.getLast? = some '_' := by
  rcases List.eq_nil_or_concat s.data with h | ⟨l, a, h⟩
  · simp [HasSuffix, h]
  · have hl : ("_" : String).data = ['_'] := rfl
    simp only [HasSuffix, hl, h, List.concat_eq_append, List.length_singleton,
      Bool.and_eq_true, decide_eq_true_eq, List.getLast?_concat, Option.some.injEq]
    rw [drop_pred_length_concat]
    simp

theorem replaceLoop_hyphen (l : List Char) :
    replaceLoop ['-'] ['_'] 0 l = l.map (fun c => if c = '-' then '_' else c) := by
  induction l with
  | nil => rfl
  | cons c cs ih =>
    by_cases hc : c = '-'
    · subst hc
      simp [replaceLoop, List.isPrefixOf, ih]
    · have hc' : ¬ '-' = c := fun h => hc h.symm
      simp [replaceLoop, List.isPrefixOf, ih, hc, hc']

theorem ReplaceAll_hyphen (s : String) : ReplaceAll s "-" "_" = specHyphens s := by
  have h1 : ("-" : String).data = ['-'] := rfl
  have h2 : ("_" : String).data = ['_'] := rfl
  simp [ReplaceAll, specHyphens, h1, h2, replaceLoop_hyphen]

theorem addTrailing_eq_spec (P : String) : addTrailing P = specNormalize P := by
  have h2 : ("_" : String).data = ['_'] := rfl
  have hne : P ≠ "" ↔ P.data ≠ [] := by
    constructor
    · intro h hd
      exact h (String.ext hd)
    · intro h hp
      exact h (by rw [hp])
  have hcond : (P ≠ "" ∧ ¬ HasSuffix P "_" = true) ↔
      (P.data ≠ [] ∧ P.data.getLast? ≠ some '_') := by
    rw [HasSuffix_underscore, hne]
  unfold addTrailing specNormalize
  by_cases hc : P.data ≠ [] ∧ P.data.getLast? ≠ some '_'
  · rw [if_pos hc, if_pos (hcond.2 hc)]
    exact String.ext (by simp [h2])
  · rw [if_neg hc, if_neg (fun h => hc (hcond.1 h))]

theorem makeEnvName_eq (up : Char → Char) (Q F : String) :
    makeEnvName up Q F = specUpper up (specHyphens ⟨Q.data ++ F.data⟩) := by
  simp only [makeEnvName, ReplaceAll_hyphen, ToUpper, specUpper]
  rfl

theorem EnvVarNameFromPrefix_eq_spec (up : Char → Char) (P F : String) :
    EnvVarNameFromPrefix up P F = specEnvName up P F := by
  unfold EnvVarNameFromPrefix specEnvName
  rw [makeEnvName_eq, addTrailing_eq_spec]

/-- On a string of ASCII runes, `strings.ToUpper` under any rune table that agrees
with the ASCII letter mapping is the ASCII upper-casing. -/
theorem EnvVarNameFromPrefix_ascii (up : Char → Char)
    (hup : ∀ c : Char, c.toNat < 128 → up c = c.toUpper) (P F : String)
    (hP : ∀ c ∈ P.data, c.toNat < 128) (hF : ∀ c ∈ F.data, c.toNat < 128) :
    EnvVarNameFromPrefix up P F = EnvVarNameFromPrefix Char.toUpper P F := by
  rw [EnvVarNameFromPrefix_eq_spec, EnvVarNameFromPrefix_eq_spec]
  unfold specEnvName specUpper
  congr 1
  apply List.map_congr_left
  intro c hc
  apply hup
  have hN : ∀ c ∈ (specNormalize P).data, c.toNat < 128 := by
    intro d hd
    unfold specNormalize at hd
    split at hd
    · rcases List.mem_append.1 hd with h | h
      · exact hP d h
      · rw [List.mem_singleton.1 h]; decide
    · exact hP d hd
  simp only [specHyphens, List.mem_map, List.mem_append] at hc
  obtain ⟨d, hd, rfl⟩ := hc
  split
  · decide
  · rcases hd with h | h
    · exact hN d h
    · exact hF d h

/-! ## Lemmas on the maps and on the set of unset names -/

theorem lookupFlag_some {V E : Type} {name : String} {l : List (Flag V E)} {f : Flag V E}
    (h : lookupFlag name l = some f) : f.Name = name ∧ f ∈ l := by
  induction l with
  | nil => simp [lookupFlag] at h
  | cons g rest ih =>
    unfold lookupFlag at h
    split at h
    · cases h
      exact ⟨by assumption, List.mem_cons_self _ _⟩
    · exact ⟨(ih h).1, List.mem_cons_of_mem _ (ih h).2⟩

theorem lookupFlag_isSome_iff {V E : Type} (name : String) (l : List (Flag V E)) :
    (∃ f, lookupFlag name l = some f) ↔ ∃ f ∈ l, f.Name = name := by
  constructor
  · rintro ⟨f, hf⟩
    exact ⟨f, (lookupFlag_some hf).2, (lookupFlag_some hf).1⟩
  · rintro ⟨f, hf, hn⟩
    induction l with
    | nil => simp at hf
    | cons g rest ih =>
      unfold lookupFlag
      by_cases hg : g.Name = name
      · exact ⟨g, by rw [if_pos hg]⟩
      · rw [if_neg hg]
        rcases List.mem_cons.1 hf with h | h
        · exact absurd (h ▸ hn) hg
        · exact ih h

theorem mem_mapAdd (m : List String) (k x : String) :
    x ∈ mapAdd m k ↔ x ∈ m ∨ x = k := by
  unfold mapAdd
  split
  · constructor
    · exact Or.inl
    · rintro (h | h)
      · exact h
      · rw [h]; assumption
  · simp

theorem nodup_mapAdd (m : List String) (k : String) (h : m.Nodup) : (mapAdd m k).Nodup := by
  unfold mapAdd
  split
  · exact h
  · rw [List.nodup_append]
    refine ⟨h, List.nodup_singleton k, ?_⟩
    intro a ha hk
    rw [List.mem_singleton.1 hk] at ha
    contradiction

theorem mem_mapDelete (m : List String) (k x : String) :
    x ∈ mapDelete m k ↔ x ∈ m ∧ x ≠ k := by
  simp [mapDelete]

theorem nodup_mapDelete (m : List String) (k : String) (h : m.Nodup) :
    (mapDelete m k).Nodup :=
  h.filter _

theorem foldl_mapAdd {V E : Type} (l : List (Flag V E)) (m : List String) (x : String) :
    (x ∈ l.foldl (fun u f => mapAdd u f.Name) m ↔ x ∈ m ∨ ∃ f ∈ l, f.Name = x) ∧
    (m.Nodup → (l.foldl (fun u f => mapAdd u f.Name) m).Nodup) := by
  induction l generalizing m with
  | nil => simp
  | cons g rest ih =>
    rw [List.foldl_cons]
    refine ⟨?_, fun h => (ih _).2 (nodup_mapAdd m g.Name h)⟩
    rw [(ih _).1, mem_mapAdd]
    constructor
    · rintro ((h | h) | ⟨f, hf, hn⟩)
      · exact Or.inl h
      · exact Or.inr ⟨g, List.mem_cons_self _ _, h.symm⟩
      · exact Or.inr ⟨f, List.mem_cons_of_mem _ hf, hn⟩
    · rintro (h | ⟨f, hf, hn⟩)
      · exact Or.inl (Or.inl h)
      · rcases List.mem_cons.1 hf with h | h
        · exact Or.inl (Or.inr (by rw [← hn, h]))
        · exact Or.inr ⟨f, h, hn⟩

theorem foldl_mapDelete {V E : Type} (l : List (Flag V E)) (m : List String) (x : String) :
    (x ∈ l.foldl (fun u f => mapDelete u f.Name) m ↔ x ∈ m ∧ ∀ f ∈ l, f.Name ≠ x) ∧
    (m.Nodup → (l.foldl (fun u f => mapDelete u f.Name) m).Nodup) := by
  induction l generalizing m with
  | nil => simp
  | cons g rest ih =>
    rw [List.foldl_cons]
    refine ⟨?_, fun h => (ih _).2 (nodup_mapDelete m g.Name h)⟩
    rw [(ih _).1, mem_mapDelete]
    constructor
    · rintro ⟨⟨h1, h2⟩, h3⟩
      refine ⟨h1, ?_⟩
      intro f hf
      rcases List.mem_cons.1 hf with h | h
      · rw [h]; exact fun e => h2 e.symm
      · exact h3 f h
    · rintro ⟨h1, h2⟩
      exact ⟨⟨h1, fun e => h2 g (List.mem_cons_self _ _) e.symm⟩,
        fun f hf => h2 f (List.mem_cons_of_mem _ hf)⟩

theorem mem_sortFlags {V E : Type} (l : List (Flag V E)) (f : Flag V E) :
    f ∈ sortFlags l ↔ f ∈ l :=
  (List.perm_insertionSort _ l).mem_iff

/-- The unset names are the names of the defined flags that are not keys of `actual`. -/
theorem mem_unset {V E : Type} (fs : FlagSet V E) (name : String) :
    name ∈ unset fs ↔ (∃ f, lookupFlag name fs.formal = some f) ∧ name ∉ fs.actual := by
  unfold unset FlagSet.Visit FlagSet.VisitAll
  rw [(foldl_mapDelete _ _ _).1, (foldl_mapAdd _ _ _).1, lookupFlag_isSome_iff]
  simp only [List.not_mem_nil, false_or, mem_sortFlags]
  constructor
  · rintro ⟨⟨f, hf, hn⟩, h2⟩
    refine ⟨⟨f, hf, hn⟩, ?_⟩
    intro hact
    obtain ⟨g, hg⟩ := (lookupFlag_isSome_iff name fs.formal).2 ⟨f, hf, hn⟩
    refine h2 g ?_ (lookupFlag_some hg).1
    unfold actualFlags
    rw [List.mem_filterMap]
    exact ⟨name, hact, hg⟩
  · rintro ⟨h1, h2⟩
    refine ⟨h1, ?_⟩
    intro g hg hn
    unfold actualFlags at hg
    rw [List.mem_filterMap] at hg
    obtain ⟨a, ha, hl⟩ := hg
    have := (lookupFlag_some hl).1
    rw [hn] at this
    rw [this] at h2
    exact h2 ha

theorem nodup_unset {V E : Type} (fs : FlagSet V E) : (unset fs).Nodup := by
  unfold unset FlagSet.Visit FlagSet.VisitAll
  exact (foldl_mapDelete _ _ "").2 ((foldl_mapAdd _ _ "").2 List.nodup_nil)

/-! ## Lemmas on `FlagSet.Set` -/

/-- `FlagSet.Set` defines no flag and removes none. -/
theorem Set_formal {V E : Type} (fs : FlagSet V E) (n v : String) :
    (fs.Set n v).1.formal = fs.formal := by
  unfold FlagSet.Set
  split
  · rfl
  · split <;> rfl

theorem Set_mem_actual {V E : Type} (fs : FlagSet V E) (n v m : String) :
    m ∈ (fs.Set n v).1.actual ↔ m ∈ fs.actual ∨ (m = n ∧ (fs.Set n v).2 = none) := by
  unfold FlagSet.Set
  split
  · simp
  · split
    · simp
    · simp [mem_mapAdd]

/-- The error of `FlagSet.Set` on a defined flag is the error of its `Value.Set`. -/
theorem Set_err {V E : Type} (fs : FlagSet V E) (n v : String) (f : Flag V E)
    (h : lookupFlag n fs.formal = some f) :
    (fs.Set n v).2 = (f.valueSet v).2.map GoError.ofValue := by
  unfold FlagSet.Set
  rw [h]
  rcases hs : f.valueSet v with ⟨w, _ | e⟩ <;> simp [hs]

/-- `FlagSet.Set` on a defined flag writes the flag's variable and no other. -/
theorem Set_vars {V E : Type} (fs : FlagSet V E) (n v : String) (f : Flag V E)
    (h : lookupFlag n fs.formal = some f) (p : Nat) :
    (fs.Set n v).1.vars p =
      if p = f.ptr then (f.valueSet v).1 (fs.vars f.ptr) else fs.vars p := by
  unfold FlagSet.Set
  rw [h]
  rcases hs : f.valueSet v with ⟨w, _ | e⟩ <;> simp [hs, store]

/-- `FlagSet.Set` on an undefined flag changes nothing. -/
theorem Set_undefined {V E : Type} (fs : FlagSet V E) (n v : String)
    (h : lookupFlag n fs.formal = none) : (fs.Set n v).1 = fs := by
  unfold FlagSet.Set
  rw [h]

/-- `FlagSet.Set` leaves alone every variable other than the one of its flag. -/
theorem Set_vars_ne {V E : Type} (fs : FlagSet V E) (n v : String) (p : Nat)
    (h : ∀ g, lookupFlag n fs.formal = some g → g.ptr ≠ p) :
    (fs.Set n v).1.vars p = fs.vars p := by
  cases hl : lookupFlag n fs.formal with
  | none => rw [Set_undefined fs n v hl]
  | some g =>
    rw [Set_vars fs n v g hl p, if_neg (fun e => h g hl e.symm)]

/-! ## Lemmas on the loop over the unset names -/

/-- The loop defines no flag and removes none. -/
theorem rangeUnset_formal {V E : Type} (env : String → Option String)
    (mk : String → String) (l : List String) (fs : FlagSet V E) :
    (rangeUnset env mk l fs).fs.formal = fs.formal := by
  induction l generalizing fs with
  | nil => rfl
  | cons a rest ih =>
    cases he : env (mk a) with
    | none =>
      simp only [rangeUnset, he, Outcome.after]
      exact ih fs
    | some w =>
      have h1 := Set_formal fs a w
      rcases hs : fs.Set a w with ⟨fs1, _ | err⟩
      · rw [hs] at h1
        simp only [rangeUnset, he, hs, Outcome.after]
        exact (ih fs1).trans h1
      · rw [hs] at h1
        simp only [rangeUnset, he, hs]
        exact h1

/-- A name that the loop does not visit, or whose variable is absent, keeps its
set-state. -/
theorem rangeUnset_actual_frame {V E : Type} (env : String → Option String)
    (mk : String → String) (m : String) (l : List String) (fs : FlagSet V E)
    (h : m ∉ l ∨ env (mk m) = none) :
    m ∈ (rangeUnset env mk l fs).fs.actual ↔ m ∈ fs.actual := by
  induction l generalizing fs with
  | nil => simp [rangeUnset]
  | cons n rest ih =>
    have hrest : m ∉ rest ∨ env (mk m) = none :=
      h.imp (fun hm hr => hm (List.mem_cons_of_mem _ hr)) id
    cases he : env (mk n) with
    | none =>
      simp only [rangeUnset, he, Outcome.after]
      exact ih fs hrest
    | some v =>
      have hmn : m ≠ n := by
        rintro rfl
        rcases h with h | h
        · exact h (List.mem_cons_self _ _)
        · rw [h] at he; cases he
      have h2 := Set_mem_actual fs n v m
      rcases hs : fs.Set n v with ⟨fs1, _ | err⟩
      · rw [hs] at h2
        simp only [rangeUnset, he, hs, Outcome.after]
        rw [ih fs1 hrest, h2]
        simp [hmn]
      · rw [hs] at h2
        simp only [rangeUnset, he, hs]
        rw [h2]
        simp [hmn]

/-- The loop removes no key from `actual`. -/
theorem rangeUnset_actual_mono {V E : Type} (env : String → Option String)
    (mk : String → String) (l : List String) (fs : FlagSet V E) (m : String)
    (hm : m ∈ fs.actual) : m ∈ (rangeUnset env mk l fs).fs.actual := by
  induction l generalizing fs with
  | nil => simpa [rangeUnset] using hm
  | cons a rest ih =>
    cases he : env (mk a) with
    | none =>
      simp only [rangeUnset, he, Outcome.after]
      exact ih fs hm
    | some w =>
      have h2 := (Set_mem_actual fs a w m).2 (Or.inl hm)
      rcases hs : fs.Set a w with ⟨fs1, _ | err⟩
      · rw [hs] at h2
        simp only [rangeUnset, he, hs, Outcome.after]
        exact ih fs1 h2
      · rw [hs] at h2
        simp only [rangeUnset, he, hs]
        exact h2

/-- A variable that no visited flag with a present environment variable points to is
left alone by the loop. -/
theorem rangeUnset_vars_frame {V E : Type} (env : String → Option String)
    (mk : String → String) (l : List String) (fs : FlagSet V E) (p : Nat)
    (h : ∀ n ∈ l, ∀ g, env (mk n) ≠ none → lookupFlag n fs.formal = some g → g.ptr ≠ p) :
    (rangeUnset env mk l fs).fs.vars p = fs.vars p := by
  induction l generalizing fs with
  | nil => rfl
  | cons a rest ih =>
    have hrest : ∀ n ∈ rest, ∀ g, env (mk n) ≠ none → lookupFlag n fs.formal = some g →
        g.ptr ≠ p := fun n hn => h n (List.mem_cons_of_mem _ hn)
    cases he : env (mk a) with
    | none =>
      simp only [rangeUnset, he, Outcome.after]
      exact ih fs hrest
    | some w =>
      have hne : env (mk a) ≠ none := by rw [he]; exact fun e => by cases e
      have h1 := Set_vars_ne fs a w p (fun g hg => h a (List.mem_cons_self _ _) g hne hg)
      have hF := Set_formal fs a w
      rcases hs : fs.Set a w with ⟨fs1, _ | err⟩
      · rw [hs] at h1 hF
        simp only [rangeUnset, he, hs, Outcome.after]
        rw [ih fs1 (by rw [hF]; exact hrest), h1]
      · rw [hs] at h1
        simp only [rangeUnset, he, hs]
        exact h1

/-- After a successful run, every visited name whose variable is present was accepted
by its setter and is a key of `actual`. -/
theorem rangeUnset_success {V E : Type} (env : String → Option String)
    (mk : String → String) (l : List String) (fs : FlagSet V E)
    (hok : (rangeUnset env mk l fs).err = none) (n : String) (hn : n ∈ l)
    (v : String) (f : Flag V E) (hv : env (mk n) = some v)
    (hf : lookupFlag n fs.formal = some f) :
    (f.valueSet v).2 = none ∧ n ∈ (rangeUnset env mk l fs).fs.actual := by
  induction l generalizing fs with
  | nil => simp at hn
  | cons a rest ih =>
    cases he : env (mk a) with
    | none =>
      have hn1 : n ∈ rest := by
        rcases List.mem_cons.1 hn with h | h
        · rw [h, he] at hv; cases hv
        · exact h
      simp only [rangeUnset, he, Outcome.after] at hok ⊢
      exact ih fs hok hn1 hf
    | some w =>
      have hF := Set_formal fs a w
      have h2 := Set_mem_actual fs a w n
      rcases hs : fs.Set a w with ⟨fs1, _ | err⟩
      · rw [hs] at hF h2
        simp only [rangeUnset, he, hs, Outcome.after] at hok ⊢
        rcases List.mem_cons.1 hn with h | h
        · subst h
          rw [hv] at he
          cases he
          have h1 := Set_err fs n v f hf
          rw [hs] at h1
          have hacc : (f.valueSet v).2 = none := by
            cases hx : (f.valueSet v).2 with
            | none => rfl
            | some e => rw [hx] at h1; simp at h1
          refine ⟨hacc, rangeUnset_actual_mono env mk rest fs1 n ?_⟩
          rw [h2]
          exact Or.inr ⟨rfl, rfl⟩
        · exact ih fs1 hok h (hF ▸ hf)
      · simp [rangeUnset, he, hs] at hok

/-- After a successful run, a visited flag whose variable no other visited flag with a
present environment variable points to holds what its setter stored. -/
theorem rangeUnset_visited_value {V E : Type} (env : String → Option String)
    (mk : String → String) (l : List String) (fs : FlagSet V E) (hnd : l.Nodup)
    (hok : (rangeUnset env mk l fs).err = none) (n : String) (hn : n ∈ l)
    (v : String) (f : Flag V E) (hv : env (mk n) = some v)
    (hf : lookupFlag n fs.formal = some f)
    (hown : ∀ m ∈ l, m ≠ n → ∀ g, env (mk m) ≠ none → lookupFlag m fs.formal = some g →
      g.ptr ≠ f.ptr) :
    (rangeUnset env mk l fs).fs.vars f.ptr = (f.valueSet v).1 (fs.vars f.ptr) := by
  induction l generalizing fs with
  | nil => simp at hn
  | cons a rest ih =>
    have hnd1 := (List.nodup_cons.1 hnd).1
    have hnd2 := (List.nodup_cons.1 hnd).2
    have hownr : ∀ m ∈ rest, m ≠ n → ∀ g, env (mk m) ≠ none →
        lookupFlag m fs.formal = some g → g.ptr ≠ f.ptr :=
      fun m hm => hown m (List.mem_cons_of_mem _ hm)
    by_cases hna : n = a
    · subst hna
      have h1 := Set_vars fs n v f hf f.ptr
      have hF := Set_formal fs n v
      rcases hs : fs.Set n v with ⟨fs1, _ | err⟩
      · rw [hs] at h1 hF
        simp only [rangeUnset, hv, hs, Outcome.after]
        rw [rangeUnset_vars_frame env mk rest fs1 f.ptr, h1, if_pos rfl]
        intro m hm g hpres hg
        rw [hF] at hg
        exact hownr m hm (fun e => hnd1 (e ▸ hm)) g hpres hg
      · simp [rangeUnset, hv, hs] at hok
    · have hn1 : n ∈ rest := by
        rcases List.mem_cons.1 hn with h | h
        · exact absurd h hna
        · exact h
      cases he : env (mk a) with
      | none =>
        simp only [rangeUnset, he, Outcome.after] at hok ⊢
        exact ih fs hnd2 hok hn1 hf hownr
      | some w =>
        have hne : env (mk a) ≠ none := by rw [he]; exact fun e => by cases e
        have h1 := Set_vars_ne fs a w f.ptr
          (fun g hg => hown a (List.mem_cons_self _ _) (fun e => hna e.symm) g hne hg)
        have hF := Set_formal fs a w
        rcases hs : fs.Set a w with ⟨fs1, _ | err⟩
        · rw [hs] at h1 hF
          simp only [rangeUnset, he, hs, Outcome.after] at hok ⊢
          rw [ih fs1 hnd2 hok hn1 (hF ▸ hf) (by rw [hF]; exact hownr), h1]
        · simp [rangeUnset, he, hs] at hok

/-- When every visited name is a defined flag and every setter accepts, the loop
returns `nil`. -/
theorem rangeUnset_ok_of_accept {V E : Type} (env : String → Option String)
    (mk : String → String) (l : List String) (fs : FlagSet V E)
    (hdef : ∀ n ∈ l, ∃ f, lookupFlag n fs.formal = some f)
    (hacc : ∀ n ∈ l, ∀ v f, env (mk n) = some v → lookupFlag n fs.formal = some f →
      (f.valueSet v).2 = none) :
    (rangeUnset env mk l fs).err = none := by
  induction l generalizing fs with
  | nil => simp [rangeUnset]
  | cons a rest ih =>
    cases he : env (mk a) with
    | none =>
      simp only [rangeUnset, he, Outcome.after]
      exact ih fs (fun n hn => hdef n (List.mem_cons_of_mem _ hn))
        (fun n hn => hacc n (List.mem_cons_of_mem _ hn))
    | some w =>
      obtain ⟨g, hg⟩ := hdef a (List.mem_cons_self _ _)
      have h1 := Set_err fs a w g hg
      rw [hacc a (List.mem_cons_self _ _) w g he hg] at h1
      have hF := Set_formal fs a w
      rcases hs : fs.Set a w with ⟨fs1, _ | err⟩
      · rw [hs] at hF
        simp only [rangeUnset, he, hs, Outcome.after]
        refine ih fs1 ?_ ?_
        · intro n hn
          rw [hF]
          exact hdef n (List.mem_cons_of_mem _ hn)
        · intro n hn v f hv hf
          rw [hF] at hf
          exact hacc n (List.mem_cons_of_mem _ hn) v f hv hf
      · rw [hs] at h1
        simp at h1

/-- The error of the loop names a visited flag, its variable, which is present, and
wraps the error of that flag's setter on the variable's value. -/
theorem rangeUnset_error {V E : Type} (env : String → Option String)
    (mk : String → String) (l : List String) (fs : FlagSet V E)
    (hdef : ∀ n ∈ l, ∃ f, lookupFlag n fs.formal = some f) (e : GoError E)
    (herr : (rangeUnset env mk l fs).err = some e) :
    ∃ n ∈ l, ∃ v f e0, env (mk n) = some v ∧ lookupFlag n fs.formal = some f ∧
      (f.valueSet v).2 = some e0 ∧ e = .unableToSet n (mk n) (.ofValue e0) := by
  induction l generalizing fs with
  | nil => simp [rangeUnset] at herr
  | cons a rest ih =>
    cases he : env (mk a) with
    | none =>
      simp only [rangeUnset, he, Outcome.after] at herr
      obtain ⟨n, hn, hrest⟩ := ih fs (fun n hn => hdef n (List.mem_cons_of_mem _ hn)) herr
      exact ⟨n, List.mem_cons_of_mem _ hn, hrest⟩
    | some w =>
      obtain ⟨g, hg⟩ := hdef a (List.mem_cons_self _ _)
      have h1 := Set_err fs a w g hg
      have hF := Set_formal fs a w
      rcases hs : fs.Set a w with ⟨fs1, _ | err⟩
      · rw [hs] at hF
        simp only [rangeUnset, he, hs, Outcome.after] at herr
        obtain ⟨n, hn, v, f, e0, hv, hf, hrej, hshape⟩ := ih fs1
          (fun n hn => by rw [hF]; exact hdef n (List.mem_cons_of_mem _ hn)) herr
        rw [hF] at hf
        exact ⟨n, List.mem_cons_of_mem _ hn, v, f, e0, hv, hf, hrej, hshape⟩
      · rw [hs] at h1
        simp only [rangeUnset, he, hs, Option.some.injEq] at herr
        cases hx : (g.valueSet w).2 with
        | none => rw [hx] at h1; simp at h1
        | some e0 =>
          rw [hx] at h1
          simp only [Option.map_some'] at h1
          refine ⟨a, List.mem_cons_self _ _, w, g, e0, he, hg, hx, ?_⟩
          rw [← herr]
          congr 1
          exact Option.some.inj h1

/-- A flag whose variable is present with a string its setter rejects is not entered
into `actual`. -/
theorem rangeUnset_rejected {V E : Type} (env : String → Option String)
    (mk : String → String) (l : List String) (fs : FlagSet V E) (n v : String)
    (f : Flag V E) (e0 : E) (hunset : n ∉ fs.actual) (hv : env (mk n) = some v)
    (hf : lookupFlag n fs.formal = some f) (hrej : (f.valueSet v).2 = some e0) :
    n ∉ (rangeUnset env mk l fs).fs.actual := by
  induction l generalizing fs with
  | nil => simpa [rangeUnset] using hunset
  | cons a rest ih =>
    cases he : env (mk a) with
    | none =>
      simp only [rangeUnset, he, Outcome.after]
      exact ih fs hunset hf
    | some w =>
      have h2 := Set_mem_actual fs a w n
      have hF := Set_formal fs a w
      rcases hs : fs.Set a w with ⟨fs1, _ | err⟩
      · rw [hs] at h2 hF
        simp only [rangeUnset, he, hs, Outcome.after]
        refine ih fs1 ?_ (hF ▸ hf)
        rw [h2]
        rintro (h | ⟨rfl, _⟩)
        · exact hunset h
        · rw [hv] at he
          cases he
          have h1 := Set_err fs n v f hf
          rw [hs, hrej] at h1
          simp at h1
      · rw [hs] at h2
        simp only [rangeUnset, he, hs]
        rw [h2]
        simp [hunset]

/-- The variable of a flag whose setter rejects, when no other visited flag with a
present environment variable points to it, holds what it held or what the rejecting
setter stored. -/
theorem rangeUnset_rejected_value {V E : Type} (env : String → Option String)
    (mk : String → String) (l : List String) (fs : FlagSet V E) (n v : String)
    (f : Flag V E) (hnd : l.Nodup) (hv : env (mk n) = some v)
    (hf : lookupFlag n fs.formal = some f)
    (hown : ∀ m ∈ l, m ≠ n → ∀ g, env (mk m) ≠ none → lookupFlag m fs.formal = some g →
      g.ptr ≠ f.ptr) :
    (rangeUnset env mk l fs).fs.vars f.ptr = fs.vars f.ptr ∨
    (rangeUnset env mk l fs).fs.vars f.ptr = (f.valueSet v).1 (fs.vars f.ptr) := by
  induction l generalizing fs with
  | nil => exact Or.inl rfl
  | cons a rest ih =>
    have hnd1 := (List.nodup_cons.1 hnd).1
    have hnd2 := (List.nodup_cons.1 hnd).2
    have hownr : ∀ m ∈ rest, m ≠ n → ∀ g, env (mk m) ≠ none →
        lookupFlag m fs.formal = some g → g.ptr ≠ f.ptr :=
      fun m hm => hown m (List.mem_cons_of_mem _ hm)
    cases he : env (mk a) with
    | none =>
      simp only [rangeUnset, he, Outcome.after]
      exact ih fs hnd2 hf hownr
    | some w =>
      have hne : env (mk a) ≠ none := by rw [he]; exact fun e => by cases e
      have hF := Set_formal fs a w
      by_cases hna : n = a
      · subst hna
        rw [hv] at he
        cases he
        have h1 := Set_vars fs n v f hf f.ptr
        rw [if_pos rfl] at h1
        rcases hs : fs.Set n v with ⟨fs1, _ | err⟩
        · rw [hs] at h1 hF
          simp only [rangeUnset, hv, hs, Outcome.after]
          refine Or.inr ?_
          rw [rangeUnset_vars_frame env mk rest fs1 f.ptr, h1]
          intro m hm g hpres hg
          rw [hF] at hg
          exact hownr m hm (fun e => hnd1 (e ▸ hm)) g hpres hg
        · rw [hs] at h1
          simp only [rangeUnset, hv, hs]
          exact Or.inr h1
      · have h1 := Set_vars_ne fs a w f.ptr
          (fun g hg => hown a (List.mem_cons_self _ _) (fun e => hna e.symm) g hne hg)
        rcases hs : fs.Set a w with ⟨fs1, _ | err⟩
        · rw [hs] at h1 hF
          simp only [rangeUnset, he, hs, Outcome.after]
          rcases ih fs1 hnd2 (hF ▸ hf) (by rw [hF]; exact hownr) with h | h
          · exact Or.inl (h.trans h1)
          · exact Or.inr (by rw [h, h1])
        · rw [hs] at h1
          simp only [rangeUnset, he, hs]
          exact Or.inl h1

/-- Every error of the loop is the wrapping error of `SetFlagsInFlagSet`. -/
theorem rangeUnset_err_wrapped {V E : Type} (env : String → Option String)
    (mk : String → String) (l : List String) (fs : FlagSet V E) (e : GoError E)
    (herr : (rangeUnset env mk l fs).err = some e) :
    ∃ n inner, e = .unableToSet n (mk n) inner := by
  induction l generalizing fs with
  | nil => simp [rangeUnset] at herr
  | cons a rest ih =>
    cases he : env (mk a) with
    | none =>
      simp only [rangeUnset, he, Outcome.after] at herr
      exact ih fs herr
    | some w =>
      rcases hs : fs.Set a w with ⟨fs1, _ | err⟩
      · simp only [rangeUnset, he, hs, Outcome.after] at herr
        exact ih fs1 herr
      · simp only [rangeUnset, he, hs, Option.some.injEq] at herr
        exact ⟨a, err, herr.symm⟩

/-! ## Stopping at the first error -/

/-- A run over `pre ++ rest` whose part over `pre` succeeds is the run over `rest`
from the flag set that the part over `pre` leaves. -/
theorem rangeUnset_append {V E : Type} (env : String → Option String)
    (mk : String → String) (pre rest : List String) (fs : FlagSet V E)
    (hok : (rangeUnset env mk pre fs).err = none) :
    rangeUnset env mk (pre ++ rest) fs =
      (rangeUnset env mk rest (rangeUnset env mk pre fs).fs).after
        (rangeUnset env mk pre fs).trace := by
  induction pre generalizing fs with
  | nil => simp [rangeUnset, Outcome.after]
  | cons a pre ih =>
    cases he : env (mk a) with
    | none =>
      rw [List.cons_append]
      simp only [rangeUnset, he, Outcome.after] at hok ⊢
      rw [ih fs hok]
      simp [Outcome.after]
    | some w =>
      rw [List.cons_append]
      rcases hs : fs.Set a w with ⟨fs1, _ | err⟩
      · simp only [rangeUnset, he, hs, Outcome.after] at hok ⊢
        rw [ih fs1 hok]
        simp [Outcome.after]
      · simp [rangeUnset, he, hs] at hok

/-- The run over `pre ++ k :: post` when the setters of `pre` accept and the setter of
`k` rejects: the part over `pre` succeeds, then `fs.Set` fails on `k` and the loop
returns. -/
theorem rangeUnset_stop {V E : Type} (env : String → Option String)
    (mk : String → String) (pre post : List String) (k v : String) (fs : FlagSet V E)
    (f : Flag V E) (e0 : E)
    (hdef : ∀ n ∈ pre, ∃ g, lookupFlag n fs.formal = some g)
    (hpre : ∀ n ∈ pre, ∀ w g, env (mk n) = some w → lookupFlag n fs.formal = some g →
      (g.valueSet w).2 = none)
    (hv : env (mk k) = some v) (hf : lookupFlag k fs.formal = some f)
    (hrej : (f.valueSet v).2 = some e0) :
    (rangeUnset env mk pre fs).err = none ∧
    (rangeUnset env mk (pre ++ k :: post) fs).err =
      some (.unableToSet k (mk k) (.ofValue e0)) ∧
    (rangeUnset env mk (pre ++ k :: post) fs).fs =
      ((rangeUnset env mk pre fs).fs.Set k v).1 ∧
    ((rangeUnset env mk pre fs).fs.Set k v).2 = some (.ofValue e0) := by
  have hok := rangeUnset_ok_of_accept env mk pre fs hdef hpre
  have hf1 : lookupFlag k (rangeUnset env mk pre fs).fs.formal = some f := by
    rw [rangeUnset_formal]
    exact hf
  have h1 := Set_err (rangeUnset env mk pre fs).fs k v f hf1
  rw [hrej] at h1
  refine ⟨hok, ?_, ?_, h1⟩
  · rw [rangeUnset_append env mk pre (k :: post) fs hok]
    rcases hs : (rangeUnset env mk pre fs).fs.Set k v with ⟨fs1, _ | err⟩
    · rw [hs] at h1
      simp at h1
    · rw [hs] at h1
      simp only [Option.map_some', Option.some.injEq] at h1
      simp only [rangeUnset, hv, hs, Outcome.after, h1]
  · rw [rangeUnset_append env mk pre (k :: post) fs hok]
    rcases hs : (rangeUnset env mk pre fs).fs.Set k v with ⟨fs1, _ | err⟩
    · rw [hs] at h1
      simp at h1
    · simp only [rangeUnset, hv, hs, Outcome.after]

/-- A loop over names none of which has a variable changes nothing and succeeds. -/
theorem rangeUnset_no_variable {V E : Type} (env : String → Option String)
    (mk : String → String) (l : List String) (fs : FlagSet V E)
    (hnone : ∀ n ∈ l, env (mk n) = none) :
    (rangeUnset env mk l fs).fs = fs ∧ (rangeUnset env mk l fs).err = none := by
  induction l with
  | nil => simp [rangeUnset]
  | cons a rest ih =>
    simp only [rangeUnset, hnone a (List.mem_cons_self _ _), Outcome.after]
    exact ih (fun n hn => hnone n (List.mem_cons_of_mem _ hn))

/-- After a successful run the trace holds the call `fs.Set(n, v)` for every visited
name `n` whose variable is present with value `v`. -/
theorem rangeUnset_trace {V E : Type} (env : String → Option String)
    (mk : String → String) (l : List String) (fs : FlagSet V E)
    (hok : (rangeUnset env mk l fs).err = none) (n : String) (hn : n ∈ l)
    (v : String) (hv : env (mk n) = some v) :
    Event.SetFlag n v ∈ (rangeUnset env mk l fs).trace := by
  induction l generalizing fs with
  | nil => simp at hn
  | cons a rest ih =>
    cases he : env (mk a) with
    | none =>
      have hn1 : n ∈ rest := by
        rcases List.mem_cons.1 hn with h | h
        · rw [h, he] at hv; cases hv
        · exact h
      simp only [rangeUnset, he, Outcome.after] at hok ⊢
      exact List.mem_append_right _ (ih fs hok hn1)
    | some w =>
      rcases hs : fs.Set a w with ⟨fs1, _ | err⟩
      · simp only [rangeUnset, he, hs, Outcome.after] at hok ⊢
        rcases List.mem_cons.1 hn with h | h
        · subst h
          rw [hv] at he
          cases he
          simp
        · exact List.mem_append_right _ (ih fs1 hok h)
      · simp [rangeUnset, he, hs] at hok

/-! ## Lemmas on `SetFlagsInFlagSet` -/

theorem iter_unset_nodup {V E : Type} (iter : List String → List String)
    (hiter : ∀ m : List String, (iter m).Perm m) (fs : FlagSet V E) :
    (iter (unset fs)).Nodup :=
  (hiter _).nodup_iff.2 (nodup_unset fs)

theorem mem_iter_unset {V E : Type} (iter : List String → List String)
    (hiter : ∀ m : List String, (iter m).Perm m) (fs : FlagSet V E) (name : String) :
    name ∈ iter (unset fs) ↔
      (∃ f, lookupFlag name fs.formal = some f) ∧ fs.isSet name = false := by
  rw [(hiter _).mem_iff, mem_unset]
  simp [FlagSet.isSet]

/-- What `ownStorage` says: no other unset flag whose variable is present points to
the variable of the flag. -/
theorem ownStorage_ptr {V E : Type} (env : String → Option String) (mk : String → String)
    (fs : FlagSet V E) (name : String) (f : Flag V E)
    (hown : ownStorage env mk fs name = true) (hf : lookupFlag name fs.formal = some f)
    (m : String) (g : Flag V E) (hm : m ≠ name) (hg : lookupFlag m fs.formal = some g)
    (hu : fs.isSet m = false) (hp : env (mk m) ≠ none) : g.ptr ≠ f.ptr := by
  unfold ownStorage at hown
  rw [hf] at hown
  have hg2 := lookupFlag_some hg
  have h := List.all_eq_true.1 hown g hg2.2
  rw [hg2.1] at h
  cases he : env (mk m) with
  | none => exact absurd he hp
  | some w =>
    rw [he, hu] at h
    simpa [hm] using h

/-- The call defines no flag and removes none. -/
theorem SetFlagsInFlagSet_formal {V E : Type} (up : Char → Char)
    (env : String → Option String) (iter : List String → List String)
    (fs : FlagSet V E) (pfx : String) :
    (SetFlagsInFlagSet up env iter fs pfx).fs.formal = fs.formal :=
  rangeUnset_formal env _ _ fs

/-- The value of a defined flag after the call is the content of its variable. -/
theorem SetFlagsInFlagSet_valueOf {V E : Type} (up : Char → Char)
    (env : String → Option String) (iter : List String → List String)
    (fs : FlagSet V E) (pfx name : String) (f : Flag V E)
    (hf : lookupFlag name fs.formal = some f) :
    (SetFlagsInFlagSet up env iter fs pfx).fs.valueOf name =
      some ((SetFlagsInFlagSet up env iter fs pfx).fs.vars f.ptr) := by
  unfold FlagSet.valueOf
  rw [SetFlagsInFlagSet_formal, hf]
  rfl

/-- The call succeeds exactly when the setter of every unset flag whose variable is
present accepts the variable's value. -/
theorem SetFlagsInFlagSet_ok_iff {V E : Type} (up : Char → Char)
    (env : String → Option String) (iter : List String → List String)
    (hiter : ∀ m : List String, (iter m).Perm m) (fs : FlagSet V E) (pfx : String) :
    (SetFlagsInFlagSet up env iter fs pfx).err = none ↔
      ∀ name v f, lookupFlag name fs.formal = some f → fs.isSet name = false →
        env (EnvVarNameFromPrefix up pfx name) = some v → (f.valueSet v).2 = none := by
  unfold SetFlagsInFlagSet
  constructor
  · intro hok name v f hf hunset hv
    have hmem := (mem_iter_unset iter hiter fs name).2 ⟨⟨f, hf⟩, hunset⟩
    exact (rangeUnset_success env _ _ fs hok name hmem v f hv hf).1
  · intro hacc
    refine rangeUnset_ok_of_accept env _ _ fs ?_ ?_
    · intro n hn
      exact ((mem_iter_unset iter hiter fs n).1 hn).1
    · intro n hn v f hv hf
      exact hacc n v f hf ((mem_iter_unset iter hiter fs n).1 hn).2 hv

/-- The loop of a call writes no variable that is the own storage of a flag, other
than through that flag. -/
theorem ownStorage_loop {V E : Type} (up : Char → Char)
    (env : String → Option String) (iter : List String → List String)
    (hiter : ∀ m : List String, (iter m).Perm m) (fs : FlagSet V E) (pfx name : String)
    (f : Flag V E) (hf : lookupFlag name fs.formal = some f)
    (hown : ownStorage env (EnvVarNameFromPrefix up pfx) fs name = true) :
    ∀ m ∈ iter (unset fs), m ≠ name → ∀ g,
      env (EnvVarNameFromPrefix up pfx m) ≠ none → lookupFlag m fs.formal = some g →
      g.ptr ≠ f.ptr := by
  intro m hm hne g hp hg
  exact ownStorage_ptr env _ fs name f hown hf m g hne hg
    ((mem_iter_unset iter hiter fs m).1 hm).2 hp

/-- A flag that is explicitly set, or whose variable is absent, and that has its
storage to itself, keeps the content of its variable, whatever the call returns. -/
theorem SetFlagsInFlagSet_vars_untouched {V E : Type} (up : Char → Char)
    (env : String → Option String) (iter : List String → List String)
    (hiter : ∀ m : List String, (iter m).Perm m) (fs : FlagSet V E) (pfx name : String)
    (f : Flag V E) (hf : lookupFlag name fs.formal = some f)
    (hown : ownStorage env (EnvVarNameFromPrefix up pfx) fs name = true)
    (hnot : fs.isSet name = true ∨ env (EnvVarNameFromPrefix up pfx name) = none) :
    (SetFlagsInFlagSet up env iter fs pfx).fs.vars f.ptr = fs.vars f.ptr := by
  apply rangeUnset_vars_frame
  intro m hm g hp hg
  refine ownStorage_loop up env iter hiter fs pfx name f hf hown m hm ?_ g hp hg
  rintro rfl
  rcases hnot with h | h
  · rw [((mem_iter_unset iter hiter fs m).1 hm).2] at h
    cases h
  · exact hp h

/-- After a successful call, an unset flag whose variable is present and that has its
storage to itself holds what its setter stored. -/
theorem SetFlagsInFlagSet_vars_visited {V E : Type} (up : Char → Char)
    (env : String → Option String) (iter : List String → List String)
    (hiter : ∀ m : List String, (iter m).Perm m) (fs : FlagSet V E) (pfx : String)
    (hok : (SetFlagsInFlagSet up env iter fs pfx).err = none)
    (name v : String) (f : Flag V E) (hf : lookupFlag name fs.formal = some f)
    (hunset : fs.isSet name = false)
    (hv : env (EnvVarNameFromPrefix up pfx name) = some v)
    (hown : ownStorage env (EnvVarNameFromPrefix up pfx) fs name = true) :
    (SetFlagsInFlagSet up env iter fs pfx).fs.vars f.ptr =
      (f.valueSet v).1 (fs.vars f.ptr) :=
  rangeUnset_visited_value env (EnvVarNameFromPrefix up pfx) (iter (unset fs)) fs
    (iter_unset_nodup iter hiter fs) hok name
    ((mem_iter_unset iter hiter fs name).2 ⟨⟨f, hf⟩, hunset⟩) v f hv hf
    (ownStorage_loop up env iter hiter fs pfx name f hf hown)

/-- After a successful call, an unset flag whose variable is present is a key of
`actual`. -/
theorem SetFlagsInFlagSet_success_set {V E : Type} (up : Char → Char)
    (env : String → Option String) (iter : List String → List String)
    (hiter : ∀ m : List String, (iter m).Perm m) (fs : FlagSet V E) (pfx : String)
    (hok : (SetFlagsInFlagSet up env iter fs pfx).err = none)
    (name v : String) (f : Flag V E) (hf : lookupFlag name fs.formal = some f)
    (hunset : fs.isSet name = false)
    (hv : env (EnvVarNameFromPrefix up pfx name) = some v) :
    (f.valueSet v).2 = none ∧ name ∈ (SetFlagsInFlagSet up env iter fs pfx).fs.actual :=
  rangeUnset_success env (EnvVarNameFromPrefix up pfx) (iter (unset fs)) fs hok name
    ((mem_iter_unset iter hiter fs name).2 ⟨⟨f, hf⟩, hunset⟩) v f hv hf

/-- A flag that is set, or undefined, or whose variable is absent, keeps its
set-state in every call. -/
theorem SetFlagsInFlagSet_actual_frame {V E : Type} (up : Char → Char)
    (env : String → Option String) (iter : List String → List String)
    (hiter : ∀ m : List String, (iter m).Perm m) (fs : FlagSet V E) (pfx name : String)
    (hnv : ¬ ((∃ f, lookupFlag name fs.formal = some f) ∧ fs.isSet name = false ∧
      ∃ v, env (EnvVarNameFromPrefix up pfx name) = some v)) :
    name ∈ (SetFlagsInFlagSet up env iter fs pfx).fs.actual ↔ name ∈ fs.actual := by
  apply rangeUnset_actual_frame
  by_cases hmem : name ∈ iter (unset fs)
  · right
    have h := (mem_iter_unset iter hiter fs name).1 hmem
    cases hv : env (EnvVarNameFromPrefix up pfx name) with
    | none => rfl
    | some v => exact absurd ⟨h.1, h.2, v, hv⟩ hnv
  · exact Or.inl hmem

/-! ## Claims -/

/-- C1: for every prefix `P` and flag name `F`, `EnvVarNameFromPrefix(P)(F)` is
`uppercase(replaceAll(P' ++ F, "-", "_"))` with `P' = P ++ "_"` when `P` is non-empty
and does not end in `_`, and `P' = P` otherwise; the prefix part is itself
hyphen-replaced and upper-cased; and, for every rune table that agrees with ASCII
upper-casing on ASCII runes, the four rows of the test table hold. -/
theorem C1_envVarName_formula (up : Char → Char) (P F : String) :
    EnvVarNameFromPrefix up P F = specEnvName up P F ∧
    EnvVarNameFromPrefix up P F =
      specUpper up (specHyphens (specNormalize P)) ++ specUpper up (specHyphens F) ∧
    ((∀ c : Char, c.toNat < 128 → up c = c.toUpper) →
      EnvVarNameFromPrefix up "" "log-level" = "LOG_LEVEL" ∧
      EnvVarNameFromPrefix up "app" "host" = "APP_HOST" ∧
      EnvVarNameFromPrefix up "app_" "host" = "APP_HOST" ∧
      EnvVarNameFromPrefix up "SVC" "enable-feature-x" = "SVC_ENABLE_FEATURE_X") := by
  refine ⟨EnvVarNameFromPrefix_eq_spec up P F, ?_, ?_⟩
  · rw [EnvVarNameFromPrefix_eq_spec]
    apply String.ext
    simp [specEnvName, specUpper, specHyphens]
  · intro hup
    refine ⟨?_, ?_, ?_, ?_⟩
    · rw [EnvVarNameFromPrefix_ascii up hup _ _ (by decide) (by decide)]; decide
    · rw [EnvVarNameFromPrefix_ascii up hup _ _ (by decide) (by decide)]; decide
    · rw [EnvVarNameFromPrefix_ascii up hup _ _ (by decide) (by decide)]; decide
    · rw [EnvVarNameFromPrefix_ascii up hup _ _ (by decide) (by decide)]; decide

/-- Witness of C1 at the ASCII rune table. -/
theorem C1_envVarName_formula_witness :
    (∀ c : Char, c.toNat < 128 → Char.toUpper c = c.toUpper) ∧
    EnvVarNameFromPrefix Char.toUpper "" "log-level" = "LOG_LEVEL" ∧
    EnvVarNameFromPrefix Char.toUpper "app" "host" = "APP_HOST" ∧
    EnvVarNameFromPrefix Char.toUpper "app_" "host" = "APP_HOST" ∧
    EnvVarNameFromPrefix Char.toUpper "SVC" "enable-feature-x" = "SVC_ENABLE_FEATURE_X" :=
  ⟨fun _ _ => rfl, (C1_envVarName_formula Char.toUpper "" "").2.2 (fun _ _ => rfl)⟩


/-- C2, as stated, fails at the empty prefix: `""` does not end in `_`, its derived
name for `host` is `HOST`, while the prefix `"" ++ "_"` gives `_HOST`; under every
rune table the two names differ. -/
theorem C2_counterexample_empty_prefix :
    HasSuffix "" "_" = false ∧
    EnvVarNameFromPrefix Char.toUpper "" "host" = "HOST" ∧
    EnvVarNameFromPrefix Char.toUpper ("" ++ "_") "host" = "_HOST" ∧
    (∀ up : Char → Char,
      EnvVarNameFromPrefix up "" "host" ≠ EnvVarNameFromPrefix up ("" ++ "_") "host") := by
  refine ⟨by decide, by decide, by decide, ?_⟩
  intro up h
  have h1 : specNormalize "" = "" := by decide
  have h2 : specNormalize ("" ++ "_") = "_" := by decide
  have e1 : (EnvVarNameFromPrefix up "" "host").data.length = 4 := by
    rw [EnvVarNameFromPrefix_eq_spec]
    simp only [specEnvName, specUpper, specHyphens, h1, List.length_map, List.length_append]
    rfl
  have e2 : (EnvVarNameFromPrefix up ("" ++ "_") "host").data.length = 5 := by
    rw [EnvVarNameFromPrefix_eq_spec]
    simp only [specEnvName, specUpper, specHyphens, h2, List.length_map, List.length_append]
    rfl
  rw [h, e2] at e1
  exact absurd e1 (by decide)

/-- C2 (amended): for every non-empty prefix `P` that does not end in `_` and every
flag name `F`, `EnvVarNameFromPrefix(P)(F) = EnvVarNameFromPrefix(P ++ "_")(F)`. -/
theorem C2_trailing_separator (up : Char → Char) (P F : String) (hne : P ≠ "")
    (hsuf : HasSuffix P "_" = false) :
    EnvVarNameFromPrefix up P F = EnvVarNameFromPrefix up (P ++ "_") F := by
  have h1 : addTrailing P = P ++ "_" := by
    unfold addTrailing
    rw [if_pos ⟨hne, by simp [hsuf]⟩]
  have h2 : addTrailing (P ++ "_") = P ++ "_" := by
    have hs : HasSuffix (P ++ "_") "_" = true := by
      rw [HasSuffix_underscore]
      have hd : (P ++ "_").data = P.data ++ ['_'] := by
        rw [String.data_append]
      rw [hd, List.getLast?_concat]
    unfold addTrailing
    rw [if_neg (fun h => h.2 hs)]
  unfold EnvVarNameFromPrefix
  rw [h1, h2]

/-- Witness of C2 (amended): the prefixes `app` and `app_`. -/
theorem C2_trailing_separator_witness :
    ("app" : String) ≠ "" ∧ HasSuffix "app" "_" = false ∧
    EnvVarNameFromPrefix Char.toUpper "app" "host" =
      EnvVarNameFromPrefix Char.toUpper ("app" ++ "_") "host" :=
  ⟨by decide, by decide,
    C2_trailing_separator Char.toUpper "app" "host" (by decide) (by decide)⟩

/-- A flag that is explicitly set, or whose variable is absent, and that has its
storage to itself, keeps its value, whatever the call returns. -/
theorem SetFlagsInFlagSet_value_untouched {V E : Type} (up : Char → Char)
    (env : String → Option String) (iter : List String → List String)
    (hiter : ∀ m : List String, (iter m).Perm m) (fs : FlagSet V E) (pfx name : String)
    (hown : ownStorage env (EnvVarNameFromPrefix up pfx) fs name = true)
    (hnot : fs.isSet name = true ∨ env (EnvVarNameFromPrefix up pfx name) = none) :
    (SetFlagsInFlagSet up env iter fs pfx).fs.valueOf name = fs.valueOf name := by
  cases hl : lookupFlag name fs.formal with
  | none =>
    unfold FlagSet.valueOf
    rw [SetFlagsInFlagSet_formal, hl]
    rfl
  | some f =>
    rw [SetFlagsInFlagSet_valueOf up env iter fs pfx name f hl,
      SetFlagsInFlagSet_vars_untouched up env iter hiter fs pfx name f hl hown hnot]
    unfold FlagSet.valueOf
    rw [hl]
    rfl

/-- C3, as stated, fails: the flag `g` and the flag `gopher_type` are defined on one
variable, `-g=cli` was given on the command line and `GOPHER_TYPE=fromenv` is in the
environment. `gopher_type` is unset, so the call sets it, and the explicitly set flag
`g` reads `fromenv` afterwards. -/
theorem C3_counterexample_shared_variable :
    fsGopherCli.isSet "g" = true ∧
    fsGopherCli.isSet "gopher_type" = false ∧
    fsGopherCli.valueOf "g" = some (.string "cli") ∧
    envGopher (EnvVarNameFromPrefix Char.toUpper "" "gopher_type") = some "fromenv" ∧
    (SetFlagsInFlagSet Char.toUpper envGopher id fsGopherCli "").err = none ∧
    (SetFlagsInFlagSet Char.toUpper envGopher id fsGopherCli "").fs.valueOf "g" =
      some (.string "fromenv") ∧
    (SetFlagsInFlagSet Char.toUpper envGopher id fsGopherCli "").fs.valueOf "g" ≠
      fsGopherCli.valueOf "g" := by
  decide

/-- C3 (amended): for every registry, prefix, environment and iteration order, a flag
that is explicitly set before `SetFlagsInFlagSet` runs is still explicitly set after
the call, and, when no flag that is not explicitly set and whose derived environment
variable is present shares its variable, it has the same value after the call as
before it, whether or not its own derived environment variable exists and whatever
the call returns. -/
theorem C3_set_flag_not_overwritten {V E : Type} (up : Char → Char)
    (env : String → Option String) (iter : List String → List String)
    (hiter : ∀ m : List String, (iter m).Perm m) (fs : FlagSet V E) (pfx name : String)
    (hset : fs.isSet name = true) :
    (SetFlagsInFlagSet up env iter fs pfx).fs.isSet name = true ∧
    (ownStorage env (EnvVarNameFromPrefix up pfx) fs name = true →
      (SetFlagsInFlagSet up env iter fs pfx).fs.valueOf name = fs.valueOf name) := by
  have hmem : name ∈ fs.actual := by simpa [FlagSet.isSet] using hset
  refine ⟨?_, fun hown =>
    SetFlagsInFlagSet_value_untouched up env iter hiter fs pfx name hown (Or.inl hset)⟩
  unfold FlagSet.isSet SetFlagsInFlagSet
  simpa using rangeUnset_actual_mono env _ _ fs name hmem

/-- Witness of C3 (amended): the flag `test` with default `default`, set to
`newvalue`, with `OVERRIDEFROMENVTEST_TEST=override` in the environment, stays
`newvalue`. -/
theorem C3_set_flag_not_overwritten_witness :
    fsIgnoreSetFlags.isSet "test" = true ∧
    envOverride (EnvVarNameFromPrefix Char.toUpper "OVERRIDEFROMENVTEST_" "test") =
      some "override" ∧
    (SetFlagsInFlagSet Char.toUpper envOverride id fsIgnoreSetFlags
      "OVERRIDEFROMENVTEST_").fs.valueOf "test" = some (.string "newvalue") :=
  ⟨by decide, by decide,
    ((C3_set_flag_not_overwritten Char.toUpper envOverride id (fun _ => List.Perm.refl _)
      fsIgnoreSetFlags "OVERRIDEFROMENVTEST_" "test" (by decide)).2 (by decide)).trans
      (by decide)⟩

/-- C4, as stated, fails: the unset flags `g` and `gopher_type` are defined on one
variable, with `G=short` and `GOPHER_TYPE=long`. The call visits `g`, then
`gopher_type`, and succeeds; the setter of `g` produces `short` from its variable, but
`g` ends as `long`. -/
theorem C4_counterexample_shared_variable :
    id (unset fsGopher) = ["g", "gopher_type"] ∧
    fsGopher.isSet "g" = false ∧
    envGopherBoth (EnvVarNameFromPrefix Char.toUpper "" "g") = some "short" ∧
    (SetFlagsInFlagSet Char.toUpper envGopherBoth id fsGopher "").err = none ∧
    ((stringFlag 0 "g").valueSet "short").1 (fsGopher.vars 0) = .string "short" ∧
    (SetFlagsInFlagSet Char.toUpper envGopherBoth id fsGopher "").fs.valueOf "g" =
      some (.string "long") ∧
    (SetFlagsInFlagSet Char.toUpper envGopherBoth id fsGopher "").fs.valueOf "g" ≠
      some (((stringFlag 0 "g").valueSet "short").1 (fsGopher.vars 0)) := by
  decide

/-- C4 (amended): for every registry, prefix, environment and iteration order, if
`SetFlagsInFlagSet` returns success, then every defined flag that was not explicitly
set before the call and whose derived environment variable is present with string
`v` was accepted by its typed setter and is explicitly set after the call, and, when
no other such flag shares its variable, it ends with the value that its setter
produces from `v`. -/
theorem C4_unset_flag_takes_env_value {V E : Type} (up : Char → Char)
    (env : String → Option String) (iter : List String → List String)
    (hiter : ∀ m : List String, (iter m).Perm m) (fs : FlagSet V E) (pfx : String)
    (hok : (SetFlagsInFlagSet up env iter fs pfx).err = none)
    (name v : String) (f : Flag V E) (hf : lookupFlag name fs.formal = some f)
    (hunset : fs.isSet name = false)
    (hv : env (EnvVarNameFromPrefix up pfx name) = some v) :
    (f.valueSet v).2 = none ∧
    (SetFlagsInFlagSet up env iter fs pfx).fs.isSet name = true ∧
    (ownStorage env (EnvVarNameFromPrefix up pfx) fs name = true →
      (SetFlagsInFlagSet up env iter fs pfx).fs.valueOf name =
        some ((f.valueSet v).1 (fs.vars f.ptr))) := by
  have h := SetFlagsInFlagSet_success_set up env iter hiter fs pfx hok name v f hf hunset hv
  refine ⟨h.1, ?_, ?_⟩
  · unfold FlagSet.isSet
    simpa using h.2
  · intro hown
    rw [SetFlagsInFlagSet_valueOf up env iter fs pfx name f hf,
      SetFlagsInFlagSet_vars_visited up env iter hiter fs pfx hok name v f hf hunset hv hown]

/-- Witness of C4 (amended): with prefix `OVERRIDEFROMENVTEST`, the hyphenated int
flag `int-64-test` (default 1) reads `OVERRIDEFROMENVTEST_INT_64_TEST=2` and ends as
2; so does the int flag `inttest` from `OVERRIDEFROMENVTEST_INTTEST=2`. -/
theorem C4_unset_flag_takes_env_value_witness :
    (SetFlagsInFlagSet Char.toUpper envUnsetFlags id fsUnsetFlags
      "OVERRIDEFROMENVTEST").err = none ∧
    fsUnsetFlags.valueOf "int-64-test" = some (.int 1) ∧
    EnvVarNameFromPrefix Char.toUpper "OVERRIDEFROMENVTEST" "int-64-test" =
      "OVERRIDEFROMENVTEST_INT_64_TEST" ∧
    (SetFlagsInFlagSet Char.toUpper envUnsetFlags id fsUnsetFlags
      "OVERRIDEFROMENVTEST").fs.valueOf "int-64-test" = some (.int 2) ∧
    (SetFlagsInFlagSet Char.toUpper envUnsetFlags id fsUnsetFlags
      "OVERRIDEFROMENVTEST").fs.isSet "int-64-test" = true ∧
    (SetFlagsInFlagSet Char.toUpper envUnsetFlags id fsUnsetFlags
      "OVERRIDEFROMENVTEST").fs.valueOf "inttest" = some (.int 2) :=
  have h := C4_unset_flag_takes_env_value Char.toUpper envUnsetFlags id
    (fun _ => List.Perm.refl _) fsUnsetFlags "OVERRIDEFROMENVTEST" (by decide)
    "int-64-test" "2" (intFlag 1 "int-64-test") rfl (by decide) (by decide)
  ⟨by decide, by decide, by decide, (h.2.2 (by decide)).trans (by decide), h.2.1,
    by decide⟩

/-- C5, as stated, fails: the unset flags `g` and `gopher_type` are defined on one
variable holding `pocket`, `G` is absent and `GOPHER_TYPE=fromenv` is present. The
call sets `gopher_type`, and the flag `g` reads `fromenv` afterwards. -/
theorem C5_counterexample_shared_variable :
    fsGopher.isSet "g" = false ∧
    envGopher (EnvVarNameFromPrefix Char.toUpper "" "g") = none ∧
    fsGopher.valueOf "g" = some (.string "pocket") ∧
    (SetFlagsInFlagSet Char.toUpper envGopher id fsGopher "").fs.valueOf "g" =
      some (.string "fromenv") ∧
    (SetFlagsInFlagSet Char.toUpper envGopher id fsGopher "").fs.valueOf "g" ≠
      fsGopher.valueOf "g" := by
  decide

/-- C5 (amended): for every registry, prefix, environment and iteration order, a flag
that is not explicitly set and whose derived environment variable is absent stays
not explicitly set after `SetFlagsInFlagSet`, and, when no other flag that is not
explicitly set and whose derived environment variable is present shares its variable,
it keeps the value it had (its default), whatever the call returns. -/
theorem C5_absent_variable_keeps_default {V E : Type} (up : Char → Char)
    (env : String → Option String) (iter : List String → List String)
    (hiter : ∀ m : List String, (iter m).Perm m) (fs : FlagSet V E) (pfx name : String)
    (hunset : fs.isSet name = false)
    (habsent : env (EnvVarNameFromPrefix up pfx name) = none) :
    (SetFlagsInFlagSet up env iter fs pfx).fs.isSet name = false ∧
    (ownStorage env (EnvVarNameFromPrefix up pfx) fs name = true →
      (SetFlagsInFlagSet up env iter fs pfx).fs.valueOf name = fs.valueOf name) := by
  have hnot : name ∉ fs.actual := by simpa [FlagSet.isSet] using hunset
  have hfr := rangeUnset_actual_frame env (EnvVarNameFromPrefix up pfx) name
    (iter (unset fs)) fs (Or.inr habsent)
  refine ⟨?_, fun hown =>
    SetFlagsInFlagSet_value_untouched up env iter hiter fs pfx name hown (Or.inr habsent)⟩
  unfold SetFlagsInFlagSet FlagSet.isSet
  simpa using fun h => hnot (hfr.1 h)

/-- Witness of C5 (amended): in the example, the flag `host` with default
`localhost` and no `APP_HOST` in the environment stays `localhost` and unset. -/
theorem C5_absent_variable_keeps_default_witness :
    fsExample.isSet "host" = false ∧
    envExample (EnvVarNameFromPrefix Char.toUpper "APP" "host") = none ∧
    fsExample.valueOf "host" = some (.string "localhost") ∧
    (SetFlagsInFlagSet Char.toUpper envExample id fsExample "APP").fs.valueOf "host" =
      some (.string "localhost") ∧
    (SetFlagsInFlagSet Char.toUpper envExample id fsExample "APP").fs.isSet "host" = false :=
  have h := C5_absent_variable_keeps_default Char.toUpper envExample id
    (fun _ => List.Perm.refl _) fsExample "APP" "host" (by decide) (by decide)
  ⟨by decide, by decide, by decide, (h.2 (by decide)).trans (by decide), h.1⟩

/-- C6, as stated, fails: the unset numeric flag `test` with default `1` and
`OVERRIDEFROMENVTEST_TEST=override`. The setter rejects `override` and the call
returns an error, but the setter has stored `0`: the flag does not hold its default
any more. -/
theorem C6_counterexample_default_lost :
    fsError.isSet "test" = false ∧
    fsError.valueOf "test" = some (.int 1) ∧
    envOverride (EnvVarNameFromPrefix Char.toUpper "OVERRIDEFROMENVTEST_" "test") =
      some "override" ∧
    (intValue_Set "override").2 = some .errParse ∧
    (SetFlagsInFlagSet Char.toUpper envOverride id fsError "OVERRIDEFROMENVTEST_").err ≠ none ∧
    (SetFlagsInFlagSet Char.toUpper envOverride id fsError
      "OVERRIDEFROMENVTEST_").fs.valueOf "test" = some (.int 0) ∧
    (SetFlagsInFlagSet Char.toUpper envOverride id fsError
      "OVERRIDEFROMENVTEST_").fs.valueOf "test" ≠ fsError.valueOf "test" := by
  decide

/-- C6 (amended): for every registry, prefix, environment and iteration order, if
the derived environment variable of a flag that is not explicitly set is present
with a string that the flag's typed setter rejects, then `SetFlagsInFlagSet` returns
an error and the flag stays not explicitly set; and, when no other flag that is not
explicitly set and whose derived environment variable is present shares its
variable, its value after the call is the value it had or the value that the
rejecting setter stored. -/
theorem C6_rejected_value_is_error {V E : Type} (up : Char → Char)
    (env : String → Option String) (iter : List String → List String)
    (hiter : ∀ m : List String, (iter m).Perm m) (fs : FlagSet V E) (pfx : String)
    (name v : String) (f : Flag V E) (e0 : E)
    (hf : lookupFlag name fs.formal = some f) (hunset : fs.isSet name = false)
    (hv : env (EnvVarNameFromPrefix up pfx name) = some v)
    (hrej : (f.valueSet v).2 = some e0) :
    (SetFlagsInFlagSet up env iter fs pfx).err ≠ none ∧
    (SetFlagsInFlagSet up env iter fs pfx).fs.isSet name = false ∧
    (ownStorage env (EnvVarNameFromPrefix up pfx) fs name = true →
      (SetFlagsInFlagSet up env iter fs pfx).fs.valueOf name = fs.valueOf name ∨
      (SetFlagsInFlagSet up env iter fs pfx).fs.valueOf name =
        some ((f.valueSet v).1 (fs.vars f.ptr))) := by
  have hnot : name ∉ fs.actual := by simpa [FlagSet.isSet] using hunset
  have herr : (SetFlagsInFlagSet up env iter fs pfx).err ≠ none := by
    intro hok
    have := (SetFlagsInFlagSet_ok_iff up env iter hiter fs pfx).1 hok name v f hf hunset hv
    rw [this] at hrej
    cases hrej
  have h := rangeUnset_rejected env (EnvVarNameFromPrefix up pfx) (iter (unset fs)) fs
    name v f e0 hnot hv hf hrej
  refine ⟨herr, ?_, ?_⟩
  · unfold SetFlagsInFlagSet FlagSet.isSet
    simpa using h
  · intro hown
    have hval := rangeUnset_rejected_value env (EnvVarNameFromPrefix up pfx)
      (iter (unset fs)) fs name v f (iter_unset_nodup iter hiter fs) hv hf
      (ownStorage_loop up env iter hiter fs pfx name f hf hown)
    have hbefore : fs.valueOf name = some (fs.vars f.ptr) := by
      unfold FlagSet.valueOf
      rw [hf]
      rfl
    rw [SetFlagsInFlagSet_valueOf up env iter fs pfx name f hf, hbefore]
    rcases hval with h2 | h2
    · exact Or.inl (congrArg some h2)
    · exact Or.inr (congrArg some h2)

/-- Witness of C6 (amended): the numeric flag `test` with
`OVERRIDEFROMENVTEST_TEST=override`; the call returns an error, the flag stays unset
and holds the `0` that its setter stored. -/
theorem C6_rejected_value_is_error_witness :
    (intValue_Set "override").2 = some .errParse ∧
    (SetFlagsInFlagSet Char.toUpper envOverride id fsError "OVERRIDEFROMENVTEST_").err ≠ none ∧
    (SetFlagsInFlagSet Char.toUpper envOverride id fsError
      "OVERRIDEFROMENVTEST_").fs.isSet "test" = false ∧
    ((SetFlagsInFlagSet Char.toUpper envOverride id fsError
        "OVERRIDEFROMENVTEST_").fs.valueOf "test" = fsError.valueOf "test" ∨
      (SetFlagsInFlagSet Char.toUpper envOverride id fsError
        "OVERRIDEFROMENVTEST_").fs.valueOf "test" =
        some (((intFlag 0 "test").valueSet "override").1 (fsError.vars 0))) :=
  have h := C6_rejected_value_is_error Char.toUpper envOverride id
    (fun _ => List.Perm.refl _) fsError "OVERRIDEFROMENVTEST_" "test" "override"
    (intFlag 0 "test") .errParse rfl (by decide) (by decide) (by decide)
  ⟨by decide, h.1, h.2.1, h.2.2 (by decide)⟩

/-- C7: `SetFlagsInFlagSet` returns success if and only if every defined flag that
is not explicitly set and whose derived environment variable is present is accepted
by its typed setter for that variable's value; in particular it returns success when
no unset flag has a matching variable; and whether it succeeds does not depend on the
order in which the unset flags are visited. -/
theorem C7_success_iff_all_accepted {V E : Type} (up : Char → Char)
    (env : String → Option String) (iter iter2 : List String → List String)
    (hiter : ∀ m : List String, (iter m).Perm m)
    (hiter2 : ∀ m : List String, (iter2 m).Perm m) (fs : FlagSet V E) (pfx : String) :
    ((SetFlagsInFlagSet up env iter fs pfx).err = none ↔
      ∀ name v f, lookupFlag name fs.formal = some f → fs.isSet name = false →
        env (EnvVarNameFromPrefix up pfx name) = some v →
        (f.valueSet v).2 = none) ∧
    ((∀ name f, lookupFlag name fs.formal = some f → fs.isSet name = false →
        env (EnvVarNameFromPrefix up pfx name) = none) →
      (SetFlagsInFlagSet up env iter fs pfx).err = none) ∧
    ((SetFlagsInFlagSet up env iter fs pfx).err = none ↔
      (SetFlagsInFlagSet up env iter2 fs pfx).err = none) := by
  refine ⟨SetFlagsInFlagSet_ok_iff up env iter hiter fs pfx, ?_, ?_⟩
  · intro hnone
    rw [SetFlagsInFlagSet_ok_iff up env iter hiter fs pfx]
    intro name v f hf hunset hv
    rw [hnone name f hf hunset] at hv
    cases hv
  · rw [SetFlagsInFlagSet_ok_iff up env iter hiter fs pfx,
      SetFlagsInFlagSet_ok_iff up env iter2 hiter2 fs pfx]

/-- Witness of C7: the flags of the tests, visited in one order and in the reverse
order. -/
theorem C7_success_iff_all_accepted_witness :
    (SetFlagsInFlagSet Char.toUpper envUnsetFlags id fsUnsetFlags
      "OVERRIDEFROMENVTEST").err = none ∧
    ((SetFlagsInFlagSet Char.toUpper envUnsetFlags id fsUnsetFlags
        "OVERRIDEFROMENVTEST").err = none ↔
      (SetFlagsInFlagSet Char.toUpper envUnsetFlags List.reverse fsUnsetFlags
        "OVERRIDEFROMENVTEST").err = none) :=
  ⟨by decide,
    (C7_success_iff_all_accepted Char.toUpper envUnsetFlags id List.reverse
      (fun _ => List.Perm.refl _) List.reverse_perm fsUnsetFlags "OVERRIDEFROMENVTEST").2.2⟩

/-- C8: whenever `SetFlagsInFlagSet` returns an error, the error names a defined
flag `n` that was not explicitly set before the call and the environment variable
name `EnvVarNameFromPrefix(prefix)(n)`, which is present in the environment, and wraps
exactly the error that the typed setter of `n` returned on that variable's value; its
message is `unable to set flag "n" from environment variable "ENV": <setter error>`. -/
theorem C8_error_identifies_flag {V E : Type} (up : Char → Char)
    (env : String → Option String) (iter : List String → List String)
    (hiter : ∀ m : List String, (iter m).Perm m) (fs : FlagSet V E) (pfx : String)
    (e : GoError E) (herr : (SetFlagsInFlagSet up env iter fs pfx).err = some e) :
    ∃ n v f e0, lookupFlag n fs.formal = some f ∧ fs.isSet n = false ∧
      env (EnvVarNameFromPrefix up pfx n) = some v ∧
      (f.valueSet v).2 = some e0 ∧
      e = .unableToSet n (EnvVarNameFromPrefix up pfx n) (.ofValue e0) ∧
      ∀ (quote : String → String) (msg : E → String),
        e.Error quote msg =
          "unable to set flag " ++ quote n ++ " from environment variable " ++
            quote (EnvVarNameFromPrefix up pfx n) ++ ": " ++ msg e0 := by
  obtain ⟨n, hn, v, f, e0, hv, hf, hrej, hshape⟩ :=
    rangeUnset_error env (EnvVarNameFromPrefix up pfx) (iter (unset fs)) fs
      (fun n hn => ((mem_iter_unset iter hiter fs n).1 hn).1) e herr
  refine ⟨n, v, f, e0, hf, ((mem_iter_unset iter hiter fs n).1 hn).2, hv, hrej, hshape, ?_⟩
  intro quote msg
  rw [hshape]
  rfl

/-- Witness of C8: the error of the numeric flag `test` on
`OVERRIDEFROMENVTEST_TEST=override`. -/
theorem C8_error_identifies_flag_witness :
    (SetFlagsInFlagSet Char.toUpper envOverride id fsError "OVERRIDEFROMENVTEST_").err =
      some (.unableToSet "test" "OVERRIDEFROMENVTEST_TEST" (.ofValue .errParse)) ∧
    ∃ n v f e0, lookupFlag n fsError.formal = some f ∧ fsError.isSet n = false ∧
      envOverride (EnvVarNameFromPrefix Char.toUpper "OVERRIDEFROMENVTEST_" n) = some v ∧
      (f.valueSet v).2 = some e0 ∧
      GoError.unableToSet "test" "OVERRIDEFROMENVTEST_TEST" (.ofValue FlagError.errParse) =
        .unableToSet n (EnvVarNameFromPrefix Char.toUpper "OVERRIDEFROMENVTEST_" n)
          (.ofValue e0) ∧
      ∀ (quote : String → String) (msg : FlagError → String),
        (GoError.unableToSet "test" "OVERRIDEFROMENVTEST_TEST"
            (.ofValue FlagError.errParse)).Error quote msg =
          "unable to set flag " ++ quote n ++ " from environment variable " ++
            quote (EnvVarNameFromPrefix Char.toUpper "OVERRIDEFROMENVTEST_" n) ++ ": " ++
            msg e0 :=
  ⟨by decide,
    C8_error_identifies_flag Char.toUpper envOverride id (fun _ => List.Perm.refl _)
      fsError "OVERRIDEFROMENVTEST_" _ (by decide)⟩

/-- C9: for every prefix and environment, if the command-line registry has not been
parsed, `SetFlags` returns the ordering error, leaves the registry as it was (every
flag's value and explicitly-set status), and performs no environment lookup and no
setter call. -/
theorem C9_not_parsed_is_error {V E : Type} (up : Char → Char)
    (env : String → Option String) (iter : List String → List String)
    (CommandLine : FlagSet V E) (pfx : String) (hparsed : CommandLine.parsed = false) :
    (SetFlags up env iter CommandLine pfx).err = some .notParsed ∧
    (SetFlags up env iter CommandLine pfx).fs = CommandLine ∧
    (∀ name, (SetFlags up env iter CommandLine pfx).fs.valueOf name =
        CommandLine.valueOf name ∧
      (SetFlags up env iter CommandLine pfx).fs.isSet name = CommandLine.isSet name) ∧
    (SetFlags up env iter CommandLine pfx).trace = [] := by
  unfold SetFlags
  rw [hparsed]
  exact ⟨rfl, rfl, fun _ => ⟨rfl, rfl⟩, rfl⟩

/-- Witness of C9: the flag `power-level` of the example program, before
`flag.Parse()`, with `SCANNER_POWER_LEVEL=9001` in the environment. -/
theorem C9_not_parsed_is_error_witness :
    (NewFlagSet.IntVar 0 "power-level" 0).parsed = false ∧
    (SetFlags Char.toUpper (environ [("SCANNER_POWER_LEVEL", "9001")]) id
      (NewFlagSet.IntVar 0 "power-level" 0) "SCANNER").err = some .notParsed ∧
    (SetFlags Char.toUpper (environ [("SCANNER_POWER_LEVEL", "9001")]) id
      (NewFlagSet.IntVar 0 "power-level" 0) "SCANNER").fs.valueOf "power-level" =
        some (.int 0) :=
  have h := C9_not_parsed_is_error Char.toUpper (environ [("SCANNER_POWER_LEVEL", "9001")])
    id (NewFlagSet.IntVar 0 "power-level" 0) "SCANNER" rfl
  ⟨rfl, h.1, ((h.2.2.1 "power-level").1).trans (by decide)⟩

/-- C10: for every prefix and environment, if the command-line registry has been
parsed, `SetFlags(prefix)` returns the same result, leaves the same registry and makes
the same calls as `SetFlagsInFlagSet` on that registry with the same prefix, and it
does not return the ordering error. -/
theorem C10_parsed_delegates {V E : Type} (up : Char → Char)
    (env : String → Option String) (iter : List String → List String)
    (CommandLine : FlagSet V E) (pfx : String) (hparsed : CommandLine.parsed = true) :
    SetFlags up env iter CommandLine pfx = SetFlagsInFlagSet up env iter CommandLine pfx ∧
    (SetFlags up env iter CommandLine pfx).err ≠ some .notParsed := by
  have heq : SetFlags up env iter CommandLine pfx =
      SetFlagsInFlagSet up env iter CommandLine pfx := by
    unfold SetFlags
    rw [hparsed]
    rfl
  refine ⟨heq, ?_⟩
  rw [heq]
  intro h
  obtain ⟨n, inner, hshape⟩ := rangeUnset_err_wrapped env (EnvVarNameFromPrefix up pfx)
    (iter (unset CommandLine)) CommandLine _ h
  cases hshape

/-- Witness of C10: the parsed flag set of the example with prefix `APP`; `port` was
given on the command line, `config-file` comes from `APP_CONFIG_FILE`. -/
theorem C10_parsed_delegates_witness :
    fsExample.parsed = true ∧
    (SetFlags Char.toUpper envExample id fsExample "APP").err = none ∧
    (SetFlags Char.toUpper envExample id fsExample "APP").fs.valueOf "port" =
      some (.int 7777) ∧
    (SetFlags Char.toUpper envExample id fsExample "APP").fs.valueOf "config-file" =
      some (.string "my-config.toml") ∧
    SetFlags Char.toUpper envExample id fsExample "APP" =
      SetFlagsInFlagSet Char.toUpper envExample id fsExample "APP" :=
  ⟨rfl, by decide, by decide, by decide,
    (C10_parsed_delegates Char.toUpper envExample id fsExample "APP" rfl).1⟩

/-! ## Stopping at the first error, and the order of the visits -/

/-- C11, as stated, fails, in two ways. Of the unset flags `alpha`, `count`, `zone`,
visited in this order, `count` is the first whose variable is rejected
(`COUNT=many`): the call returns an error and `alpha` holds `bob`, but `count` does
not keep its default `1`, its setter has stored `0`. And of the unset flags `g`,
`gopher_type`, `n`, where `g` and `gopher_type` are defined on one variable, `n` is
the first whose variable is rejected (`N=bad`): the flag `g` before it, with `G=short`
present, holds `long`. -/
theorem C11_counterexample_failing_flag_changed :
    id (unset fsStop) = ["alpha"] ++ "count" :: ["zone"] ∧
    envStop (EnvVarNameFromPrefix Char.toUpper "" "count") = some "many" ∧
    (intValue_Set "many").2 = some .errParse ∧
    (SetFlagsInFlagSet Char.toUpper envStop id fsStop "").err ≠ none ∧
    (SetFlagsInFlagSet Char.toUpper envStop id fsStop "").fs.valueOf "alpha" =
      some (.string "bob") ∧
    fsStop.valueOf "count" = some (.int 1) ∧
    (SetFlagsInFlagSet Char.toUpper envStop id fsStop "").fs.valueOf "count" =
      some (.int 0) ∧
    (SetFlagsInFlagSet Char.toUpper envStop id fsStop "").fs.valueOf "count" ≠
      fsStop.valueOf "count" ∧
    id (unset fsGopherCount) = ["g", "gopher_type"] ++ "n" :: [] ∧
    envGopherCount (EnvVarNameFromPrefix Char.toUpper "" "g") = some "short" ∧
    (stringValue_Set "short").2 = none ∧ (stringValue_Set "long").2 = none ∧
    (intValue_Set "bad").2 = some .errParse ∧
    (SetFlagsInFlagSet Char.toUpper envGopherCount id fsGopherCount "").err ≠ none ∧
    (SetFlagsInFlagSet Char.toUpper envGopherCount id fsGopherCount "").fs.valueOf "g" =
      some (.string "long") := by
  decide

/-- C11 (amended): stop on first error without rollback. For every iteration order
`pre ++ k :: post` over the unset flags, if the setters accept every variable that is
present for a flag of `pre` and the variable of `k` is present and rejected, then
`SetFlagsInFlagSet` returns the error for `k`; every flag of `pre` whose variable is
present is marked set; the flag `k` and every flag of `post` stay unset. For a flag
that shares its variable with no other unset flag whose variable is present: a flag of
`pre` whose variable is present holds the coerced value, the flag `k` holds the value
its rejecting setter stored, and a flag of `post` keeps its value. -/
theorem C11_stop_on_first_error {V E : Type} (up : Char → Char)
    (env : String → Option String) (iter : List String → List String)
    (hiter : ∀ m : List String, (iter m).Perm m) (fs : FlagSet V E) (pfx : String)
    (pre post : List String) (k v : String) (f : Flag V E) (e0 : E)
    (horder : iter (unset fs) = pre ++ k :: post)
    (hpre : ∀ n ∈ pre, ∀ w g, env (EnvVarNameFromPrefix up pfx n) = some w →
      lookupFlag n fs.formal = some g → (g.valueSet w).2 = none)
    (hv : env (EnvVarNameFromPrefix up pfx k) = some v)
    (hf : lookupFlag k fs.formal = some f)
    (hrej : (f.valueSet v).2 = some e0) :
    (SetFlagsInFlagSet up env iter fs pfx).err =
      some (.unableToSet k (EnvVarNameFromPrefix up pfx k) (.ofValue e0)) ∧
    (∀ n ∈ pre, ∀ w g, env (EnvVarNameFromPrefix up pfx n) = some w →
      lookupFlag n fs.formal = some g →
      (SetFlagsInFlagSet up env iter fs pfx).fs.isSet n = true ∧
      (ownStorage env (EnvVarNameFromPrefix up pfx) fs n = true →
        (SetFlagsInFlagSet up env iter fs pfx).fs.valueOf n =
          some ((g.valueSet w).1 (fs.vars g.ptr)))) ∧
    ((SetFlagsInFlagSet up env iter fs pfx).fs.isSet k = false ∧
      (ownStorage env (EnvVarNameFromPrefix up pfx) fs k = true →
        (SetFlagsInFlagSet up env iter fs pfx).fs.valueOf k =
          some ((f.valueSet v).1 (fs.vars f.ptr)))) ∧
    (∀ n ∈ post,
      (SetFlagsInFlagSet up env iter fs pfx).fs.isSet n = false ∧
      (ownStorage env (EnvVarNameFromPrefix up pfx) fs n = true →
        (SetFlagsInFlagSet up env iter fs pfx).fs.valueOf n = fs.valueOf n)) := by
  have hnd : (pre ++ k :: post).Nodup := horder ▸ iter_unset_nodup iter hiter fs
  have hndpre : pre.Nodup := (List.nodup_append.1 hnd).1
  have hkpre : k ∉ pre := fun h =>
    (List.nodup_append.1 hnd).2.2 h (List.mem_cons_self _ _)
  have hpostpre : ∀ n ∈ post, n ∉ pre := fun n hn h =>
    (List.nodup_append.1 hnd).2.2 h (List.mem_cons_of_mem _ hn)
  have hkpost : ∀ n ∈ post, n ≠ k := fun n hn e =>
    (List.nodup_cons.1 (List.nodup_append.1 hnd).2.1).1 (e ▸ hn)
  have hmem : ∀ n, n ∈ pre ++ k :: post →
      (∃ g, lookupFlag n fs.formal = some g) ∧ fs.isSet n = false := fun n hn =>
    (mem_iter_unset iter hiter fs n).1 (horder ▸ hn)
  have hnot : ∀ n, n ∈ pre ++ k :: post → n ∉ fs.actual := fun n hn => by
    simpa [FlagSet.isSet] using (hmem n hn).2
  have hkmem : k ∈ pre ++ k :: post := List.mem_append_right _ (List.mem_cons_self _ _)
  have hpresk : env (EnvVarNameFromPrefix up pfx k) ≠ none := by
    rw [hv]
    exact fun e => by cases e
  -- the loop over `pre`, then the failing `fs.Set` on `k`
  have hstop := rangeUnset_stop env (EnvVarNameFromPrefix up pfx) pre post k v fs f e0
    (fun n hn => (hmem n (List.mem_append_left _ hn)).1) hpre hv hf hrej
  have hf1 : lookupFlag k (rangeUnset env (EnvVarNameFromPrefix up pfx) pre fs).fs.formal =
      some f := by
    rw [rangeUnset_formal]
    exact hf
  have hfs : (SetFlagsInFlagSet up env iter fs pfx).fs =
      ((rangeUnset env (EnvVarNameFromPrefix up pfx) pre fs).fs.Set k v).1 := by
    unfold SetFlagsInFlagSet
    rw [horder]
    exact hstop.2.2.1
  have hact : ∀ m, m ∈ (SetFlagsInFlagSet up env iter fs pfx).fs.actual ↔
      m ∈ (rangeUnset env (EnvVarNameFromPrefix up pfx) pre fs).fs.actual := by
    intro m
    rw [hfs, Set_mem_actual, hstop.2.2.2]
    simp
  have hvars : ∀ p, (SetFlagsInFlagSet up env iter fs pfx).fs.vars p =
      if p = f.ptr then
        (f.valueSet v).1 ((rangeUnset env (EnvVarNameFromPrefix up pfx) pre fs).fs.vars f.ptr)
      else (rangeUnset env (EnvVarNameFromPrefix up pfx) pre fs).fs.vars p := by
    intro p
    rw [hfs]
    exact Set_vars _ k v f hf1 p
  -- a variable that is the own storage of `n` is written in `pre` only through `n`
  have hownpre : ∀ n g, lookupFlag n fs.formal = some g →
      ownStorage env (EnvVarNameFromPrefix up pfx) fs n = true →
      ∀ m ∈ pre, m ≠ n → ∀ g2, env (EnvVarNameFromPrefix up pfx m) ≠ none →
        lookupFlag m fs.formal = some g2 → g2.ptr ≠ g.ptr := by
    intro n g hg hown m hm hne g2 hp hg2
    exact ownStorage_ptr env _ fs n g hown hg m g2 hne hg2
      (hmem m (List.mem_append_left _ hm)).2 hp
  refine ⟨?_, ?_, ⟨?_, ?_⟩, ?_⟩
  · unfold SetFlagsInFlagSet
    rw [horder]
    exact hstop.2.1
  · intro n hn w g hw hg
    have hs := rangeUnset_success env (EnvVarNameFromPrefix up pfx) pre fs hstop.1 n hn w g
      hw hg
    refine ⟨?_, ?_⟩
    · unfold FlagSet.isSet
      simpa using (hact n).2 hs.2
    · intro hown
      have hnk : n ≠ k := fun e => hkpre (e ▸ hn)
      have hptr : g.ptr ≠ f.ptr := fun e =>
        ownStorage_ptr env _ fs n g hown hg k f (fun e2 => hnk e2.symm) hf
          (hmem k hkmem).2 hpresk e.symm
      rw [SetFlagsInFlagSet_valueOf up env iter fs pfx n g hg, hvars, if_neg hptr,
        rangeUnset_visited_value env (EnvVarNameFromPrefix up pfx) pre fs hndpre hstop.1
          n hn w g hw hg (hownpre n g hg hown)]
  · unfold FlagSet.isSet
    have hk := hnot k hkmem
    have hfr := rangeUnset_actual_frame env (EnvVarNameFromPrefix up pfx) k pre fs
      (Or.inl hkpre)
    simpa using fun hin => hk (hfr.1 ((hact k).1 hin))
  · intro hown
    rw [SetFlagsInFlagSet_valueOf up env iter fs pfx k f hf, hvars, if_pos rfl,
      rangeUnset_vars_frame env (EnvVarNameFromPrefix up pfx) pre fs f.ptr]
    intro m hm g2 hp hg2
    exact hownpre k f hf hown m hm (fun e => hkpre (e ▸ hm)) g2 hp hg2
  · intro n hn
    have hnmem : n ∈ pre ++ k :: post :=
      List.mem_append_right _ (List.mem_cons_of_mem _ hn)
    refine ⟨?_, ?_⟩
    · unfold FlagSet.isSet
      have hfr := rangeUnset_actual_frame env (EnvVarNameFromPrefix up pfx) n pre fs
        (Or.inl (hpostpre n hn))
      simpa using fun hin => hnot n hnmem (hfr.1 ((hact n).1 hin))
    · intro hown
      obtain ⟨g, hg⟩ := (hmem n hnmem).1
      have hptr : g.ptr ≠ f.ptr := fun e =>
        ownStorage_ptr env _ fs n g hown hg k f (fun e2 => hkpost n hn e2.symm) hf
          (hmem k hkmem).2 hpresk e.symm
      have hbefore : fs.valueOf n = some (fs.vars g.ptr) := by
        unfold FlagSet.valueOf
        rw [hg]
        rfl
      rw [SetFlagsInFlagSet_valueOf up env iter fs pfx n g hg, hvars, if_neg hptr, hbefore,
        rangeUnset_vars_frame env (EnvVarNameFromPrefix up pfx) pre fs g.ptr]
      intro m hm g2 hp hg2
      exact hownpre n g hg hown m hm (fun e => hpostpre n hn (e ▸ hm)) g2 hp hg2

/-- Witness of C11 (amended): `alpha`, then `count` with `COUNT=many`, then `zone`. -/
theorem C11_stop_on_first_error_witness :
    (SetFlagsInFlagSet Char.toUpper envStop id fsStop "").err =
      some (.unableToSet "count" "COUNT" (.ofValue .errParse)) ∧
    (SetFlagsInFlagSet Char.toUpper envStop id fsStop "").fs.valueOf "count" =
      some (.int 0) ∧
    (SetFlagsInFlagSet Char.toUpper envStop id fsStop "").fs.isSet "count" = false ∧
    (SetFlagsInFlagSet Char.toUpper envStop id fsStop "").fs.valueOf "zone" =
      some (.string "utc") :=
  have h := C11_stop_on_first_error Char.toUpper envStop id (fun _ => List.Perm.refl _)
    fsStop "" ["alpha"] ["zone"] "count" "many" (intFlag 1 "count") .errParse
    (by decide)
    (by
      intro n hn w g _ hg
      rw [List.mem_singleton.1 hn] at hg
      have hl : lookupFlag "alpha" fsStop.formal = some (stringFlag 0 "alpha") := rfl
      rw [hl] at hg
      cases hg
      rfl)
    (by decide) rfl (by decide)
  ⟨h.1.trans (by decide), (h.2.2.1.2 (by decide)).trans (by decide), h.2.2.1.1,
    ((h.2.2.2 "zone" (by decide)).2 (by decide)).trans (by decide)⟩

/-- C12, as stated, fails, in two ways. The unset int flags `a` and `b` with `A=x`
and `B=y` both rejected: visited as `a, b` the call returns the error for `a` and
leaves `b` at `2`; visited as `b, a` it returns the error for `b` and leaves `b` at
`0`. And the unset flags `g` and `gopher_type`, defined on one variable, with
`G=short` and `GOPHER_TYPE=long`: the call succeeds in both orders, and `g` ends as
`long` in one and as `short` in the other. -/
theorem C12_counterexample_order_matters :
    ((id (unset fsTwoBad)).Perm (unset fsTwoBad) ∧
      (List.reverse (unset fsTwoBad)).Perm (unset fsTwoBad) ∧
      (List.reverse (unset fsGopher)).Perm (unset fsGopher)) ∧
    (SetFlagsInFlagSet Char.toUpper envTwoBad id fsTwoBad "").err =
      some (.unableToSet "a" "A" (.ofValue .errParse)) ∧
    (SetFlagsInFlagSet Char.toUpper envTwoBad List.reverse fsTwoBad "").err =
      some (.unableToSet "b" "B" (.ofValue .errParse)) ∧
    (SetFlagsInFlagSet Char.toUpper envTwoBad id fsTwoBad "").err ≠
      (SetFlagsInFlagSet Char.toUpper envTwoBad List.reverse fsTwoBad "").err ∧
    (SetFlagsInFlagSet Char.toUpper envTwoBad id fsTwoBad "").fs.valueOf "b" =
      some (.int 2) ∧
    (SetFlagsInFlagSet Char.toUpper envTwoBad List.reverse fsTwoBad "").fs.valueOf "b" =
      some (.int 0) ∧
    (SetFlagsInFlagSet Char.toUpper envGopherBoth id fsGopher "").err = none ∧
    (SetFlagsInFlagSet Char.toUpper envGopherBoth List.reverse fsGopher "").err = none ∧
    (SetFlagsInFlagSet Char.toUpper envGopherBoth id fsGopher "").fs.valueOf "g" =
      some (.string "long") ∧
    (SetFlagsInFlagSet Char.toUpper envGopherBoth List.reverse fsGopher "").fs.valueOf "g" =
      some (.string "short") := by
  refine ⟨⟨List.Perm.refl _, List.reverse_perm _, List.reverse_perm _⟩, ?_⟩
  decide

/-- C12 (amended): for every registry, prefix and environment and any two iteration
orders over the unset names, `SetFlagsInFlagSet` returns success for one order exactly
when it does for the other, and when it returns success every flag has the same final
set-state for both orders, and every flag that shares its variable with no other
unset flag whose variable is present has the same final value for both orders. -/
theorem C12_order_irrelevant_on_success {V E : Type} (up : Char → Char)
    (env : String → Option String) (iter iter2 : List String → List String)
    (hiter : ∀ m : List String, (iter m).Perm m)
    (hiter2 : ∀ m : List String, (iter2 m).Perm m) (fs : FlagSet V E) (pfx : String) :
    ((SetFlagsInFlagSet up env iter fs pfx).err = none ↔
      (SetFlagsInFlagSet up env iter2 fs pfx).err = none) ∧
    ((SetFlagsInFlagSet up env iter fs pfx).err = none →
      ∀ name,
        (SetFlagsInFlagSet up env iter fs pfx).fs.isSet name =
          (SetFlagsInFlagSet up env iter2 fs pfx).fs.isSet name ∧
        (ownStorage env (EnvVarNameFromPrefix up pfx) fs name = true →
          (SetFlagsInFlagSet up env iter fs pfx).fs.valueOf name =
            (SetFlagsInFlagSet up env iter2 fs pfx).fs.valueOf name)) := by
  have hiff : (SetFlagsInFlagSet up env iter fs pfx).err = none ↔
      (SetFlagsInFlagSet up env iter2 fs pfx).err = none := by
    rw [SetFlagsInFlagSet_ok_iff up env iter hiter fs pfx,
      SetFlagsInFlagSet_ok_iff up env iter2 hiter2 fs pfx]
  refine ⟨hiff, ?_⟩
  intro hok name
  have hok2 := hiff.1 hok
  by_cases hvis : (∃ f, lookupFlag name fs.formal = some f) ∧ fs.isSet name = false ∧
      ∃ v, env (EnvVarNameFromPrefix up pfx name) = some v
  · obtain ⟨⟨f, hf⟩, hunset, v, hv⟩ := hvis
    have h1 := SetFlagsInFlagSet_success_set up env iter hiter fs pfx hok name v f hf
      hunset hv
    have h2 := SetFlagsInFlagSet_success_set up env iter2 hiter2 fs pfx hok2 name v f hf
      hunset hv
    refine ⟨?_, ?_⟩
    · unfold FlagSet.isSet
      simp [h1.2, h2.2]
    · intro hown
      rw [SetFlagsInFlagSet_valueOf up env iter fs pfx name f hf,
        SetFlagsInFlagSet_valueOf up env iter2 fs pfx name f hf,
        SetFlagsInFlagSet_vars_visited up env iter hiter fs pfx hok name v f hf hunset hv
          hown,
        SetFlagsInFlagSet_vars_visited up env iter2 hiter2 fs pfx hok2 name v f hf hunset
          hv hown]
  · have h1 := SetFlagsInFlagSet_actual_frame up env iter hiter fs pfx name hvis
    have h2 := SetFlagsInFlagSet_actual_frame up env iter2 hiter2 fs pfx name hvis
    refine ⟨?_, ?_⟩
    · unfold FlagSet.isSet
      simp [h1, h2]
    · intro hown
      cases hl : lookupFlag name fs.formal with
      | none =>
        unfold FlagSet.valueOf
        rw [SetFlagsInFlagSet_formal, SetFlagsInFlagSet_formal, hl]
        rfl
      | some f =>
        have hnot : fs.isSet name = true ∨
            env (EnvVarNameFromPrefix up pfx name) = none := by
          cases hs : fs.isSet name with
          | true => exact Or.inl rfl
          | false =>
            right
            cases hv : env (EnvVarNameFromPrefix up pfx name) with
            | none => rfl
            | some v => exact absurd ⟨⟨f, hl⟩, hs, v, hv⟩ hvis
        rw [SetFlagsInFlagSet_value_untouched up env iter hiter fs pfx name hown hnot,
          SetFlagsInFlagSet_value_untouched up env iter2 hiter2 fs pfx name hown hnot]

/-- Witness of C12 (amended): the flags of the tests, visited in one order and in the
reverse order, end with the same values. -/
theorem C12_order_irrelevant_on_success_witness :
    (SetFlagsInFlagSet Char.toUpper envUnsetFlags id fsUnsetFlags
      "OVERRIDEFROMENVTEST").err = none ∧
    (SetFlagsInFlagSet Char.toUpper envUnsetFlags List.reverse fsUnsetFlags
      "OVERRIDEFROMENVTEST").fs.valueOf "string-test" = some (.string "newvalue") ∧
    (SetFlagsInFlagSet Char.toUpper envUnsetFlags id fsUnsetFlags
        "OVERRIDEFROMENVTEST").fs.isSet "string-test" =
      (SetFlagsInFlagSet Char.toUpper envUnsetFlags List.reverse fsUnsetFlags
        "OVERRIDEFROMENVTEST").fs.isSet "string-test" :=
  have h := (C12_order_irrelevant_on_success Char.toUpper envUnsetFlags id List.reverse
    (fun _ => List.Perm.refl _) List.reverse_perm fsUnsetFlags "OVERRIDEFROMENVTEST").2
    (by decide) "string-test"
  ⟨by decide, (h.2 (by decide)).symm.trans (by decide), h.1⟩

/-! ## The set of unset names, and calling twice -/

theorem mem_specUnset {V E : Type} (fs : FlagSet V E) (name : String) :
    name ∈ specUnset fs ↔ (∃ f ∈ fs.formal, f.Name = name) ∧ name ∉ fs.actual := by
  simp [specUnset]

/-- C15: the set of names that `SetFlagsInFlagSet` iterates over, built by adding
every name of `VisitAll` and then deleting every name of `Visit`, is exactly (all
registered flag names) minus (names explicitly set), without repetition, for every
registry state; every call computes it from the registry it is given. -/
theorem C15_unset_is_set_difference {V E : Type} (fs : FlagSet V E) :
    (∀ name, name ∈ unset fs ↔ name ∈ specUnset fs) ∧
    (∀ name, name ∈ unset fs ↔
      (∃ f ∈ fs.formal, f.Name = name) ∧ fs.isSet name = false) ∧
    (unset fs).Nodup ∧
    (∀ (up : Char → Char) (env : String → Option String)
      (iter : List String → List String) (pfx : String),
      SetFlagsInFlagSet up env iter fs pfx =
        rangeUnset env (EnvVarNameFromPrefix up pfx) (iter (unset fs)) fs) := by
  have h : ∀ name, name ∈ unset fs ↔
      (∃ f ∈ fs.formal, f.Name = name) ∧ name ∉ fs.actual := by
    intro name
    rw [mem_unset, lookupFlag_isSome_iff]
  refine ⟨?_, ?_, nodup_unset fs, fun _ _ _ _ => rfl⟩
  · intro name
    rw [h, mem_specUnset]
  · intro name
    rw [h]
    simp [FlagSet.isSet]

/-- C16: for every registry, prefix and environment, if a first call of
`SetFlagsInFlagSet` returns success, then a second call with the same prefix and
environment returns success and changes no flag's value or set-state: every flag the
first call overrode is explicitly set, and no flag that is still unset has a matching
variable. -/
theorem C16_second_call_changes_nothing {V E : Type} (up : Char → Char)
    (env : String → Option String) (iter iter2 : List String → List String)
    (hiter : ∀ m : List String, (iter m).Perm m)
    (hiter2 : ∀ m : List String, (iter2 m).Perm m) (fs : FlagSet V E) (pfx : String)
    (hok : (SetFlagsInFlagSet up env iter fs pfx).err = none) :
    (SetFlagsInFlagSet up env iter2 (SetFlagsInFlagSet up env iter fs pfx).fs pfx).err =
      none ∧
    (SetFlagsInFlagSet up env iter2 (SetFlagsInFlagSet up env iter fs pfx).fs pfx).fs =
      (SetFlagsInFlagSet up env iter fs pfx).fs ∧
    (∀ name,
      (SetFlagsInFlagSet up env iter2
          (SetFlagsInFlagSet up env iter fs pfx).fs pfx).fs.valueOf name =
        (SetFlagsInFlagSet up env iter fs pfx).fs.valueOf name ∧
      (SetFlagsInFlagSet up env iter2
          (SetFlagsInFlagSet up env iter fs pfx).fs pfx).fs.isSet name =
        (SetFlagsInFlagSet up env iter fs pfx).fs.isSet name) ∧
    (∀ name v f, lookupFlag name fs.formal = some f → fs.isSet name = false →
      env (EnvVarNameFromPrefix up pfx name) = some v →
      (SetFlagsInFlagSet up env iter fs pfx).fs.isSet name = true) ∧
    (∀ name, name ∈ unset (SetFlagsInFlagSet up env iter fs pfx).fs →
      env (EnvVarNameFromPrefix up pfx name) = none) := by
  have hset : ∀ name v f, lookupFlag name fs.formal = some f → fs.isSet name = false →
      env (EnvVarNameFromPrefix up pfx name) = some v →
      name ∈ (SetFlagsInFlagSet up env iter fs pfx).fs.actual := fun name v f hf hu hv =>
    (SetFlagsInFlagSet_success_set up env iter hiter fs pfx hok name v f hf hu hv).2
  have hrem : ∀ name, name ∈ unset (SetFlagsInFlagSet up env iter fs pfx).fs →
      env (EnvVarNameFromPrefix up pfx name) = none := by
    intro name hname
    rw [mem_unset] at hname
    obtain ⟨f, hf⟩ := hname.1
    rw [SetFlagsInFlagSet_formal] at hf
    have hu : fs.isSet name = false := by
      unfold FlagSet.isSet
      simpa using fun hin => hname.2
        (rangeUnset_actual_mono env (EnvVarNameFromPrefix up pfx) (iter (unset fs)) fs
          name hin)
    cases hv : env (EnvVarNameFromPrefix up pfx name) with
    | none => rfl
    | some v => exact absurd (hset name v f hf hu hv) hname.2
  have h2 := rangeUnset_no_variable env (EnvVarNameFromPrefix up pfx)
    (iter2 (unset (SetFlagsInFlagSet up env iter fs pfx).fs))
    (SetFlagsInFlagSet up env iter fs pfx).fs
    (fun n hn => hrem n ((hiter2 _).mem_iff.1 hn))
  have hfs : (SetFlagsInFlagSet up env iter2
      (SetFlagsInFlagSet up env iter fs pfx).fs pfx).fs =
      (SetFlagsInFlagSet up env iter fs pfx).fs := h2.1
  refine ⟨h2.2, hfs, fun name => by rw [hfs]; exact ⟨rfl, rfl⟩, ?_, hrem⟩
  intro name v f hf hu hv
  unfold FlagSet.isSet
  simpa using hset name v f hf hu hv

/-- Witness of C16: the example, called twice with prefix `APP`. -/
theorem C16_second_call_changes_nothing_witness :
    (SetFlagsInFlagSet Char.toUpper envExample id fsExample "APP").err = none ∧
    (SetFlagsInFlagSet Char.toUpper envExample List.reverse
      (SetFlagsInFlagSet Char.toUpper envExample id fsExample "APP").fs "APP").err = none ∧
    (SetFlagsInFlagSet Char.toUpper envExample List.reverse
      (SetFlagsInFlagSet Char.toUpper envExample id fsExample "APP").fs
        "APP").fs.valueOf "config-file" = some (.string "my-config.toml") :=
  have h := C16_second_call_changes_nothing Char.toUpper envExample id List.reverse
    (fun _ => List.Perm.refl _) List.reverse_perm fsExample "APP" (by decide)
  ⟨by decide, h.1, ((h.2.2.1 "config-file").1).trans (by decide)⟩

/-! ## The shape of the derived names -/

/-- The runes of a derived name: the runes of the normalised prefix and of the flag
name, each with `-` turned into `_` and then upper-cased. -/
theorem EnvVarNameFromPrefix_data (up : Char → Char) (P F : String) :
    (EnvVarNameFromPrefix up P F).data =
      ((specNormalize P).data ++ F.data).map
        (fun c => up (if c = '-' then '_' else c)) := by
  rw [EnvVarNameFromPrefix_eq_spec]
  simp only [specEnvName, specUpper, specHyphens, List.map_map]
  rfl

theorem specNormalize_empty : specNormalize "" = "" := by decide

/-- The normalised form of a non-empty prefix ends in `_`. -/
theorem specNormalize_getLast (P : String) (hne : P ≠ "") :
    (specNormalize P).data.getLast? = some '_' := by
  have hd : P.data ≠ [] := fun h => hne (String.ext h)
  unfold specNormalize
  by_cases hl : P.data.getLast? = some '_'
  · rw [if_neg (fun h => h.2 hl)]
    exact hl
  · rw [if_pos ⟨hd, hl⟩]
    exact List.getLast?_concat _

/-- The normalised form of a prefix that ends in `-`. -/
theorem specNormalize_hyphen (Q : String) :
    (specNormalize (Q ++ "-")).data = Q.data ++ ['-', '_'] := by
  have hd : (Q ++ "-").data = Q.data ++ ['-'] := by
    rw [String.data_append]
  have hl : (Q ++ "-").data.getLast? = some '-' := by
    rw [hd]
    exact List.getLast?_concat _
  have hc : (Q ++ "-").data ≠ [] ∧ (Q ++ "-").data.getLast? ≠ some '_' := by
    refine ⟨by rw [hd]; simp, ?_⟩
    rw [hl]
    decide
  unfold specNormalize
  rw [if_pos hc]
  simp [hd]

/-- The normalised form of a prefix adds at most one rune. -/
theorem specNormalize_length_le (P : String) :
    (specNormalize P).data.length ≤ P.data.length + 1 := by
  unfold specNormalize
  split
  · simp
  · exact Nat.le_succ _

/-- The name derived from the empty flag name is a prefix of every derived name. -/
theorem EnvVarNameFromPrefix_split (up : Char → Char) (P F : String) :
    EnvVarNameFromPrefix up P F =
      EnvVarNameFromPrefix up P "" ++ EnvVarNameFromPrefix up "" F := by
  apply String.ext
  have he : ("" : String).data = [] := rfl
  rw [String.data_append, EnvVarNameFromPrefix_data, EnvVarNameFromPrefix_data,
    EnvVarNameFromPrefix_data, specNormalize_empty, he]
  simp

/-- C17: name derivation splits at the prefix boundary. For every prefix `P` and flag
name `F`, `EnvVarNameFromPrefix(P)(F) = EnvVarNameFromPrefix(P)("") ++
EnvVarNameFromPrefix("")(F)`; for non-empty `P`, and a rune table that leaves `_`
alone, the common first part `EnvVarNameFromPrefix(P)("")` ends in `_`; for the empty
prefix the derived name is the upper-cased, hyphen-replaced flag name. -/
theorem C17_split_at_prefix_boundary (up : Char → Char) (P F : String) :
    EnvVarNameFromPrefix up P F =
      EnvVarNameFromPrefix up P "" ++ EnvVarNameFromPrefix up "" F ∧
    (P ≠ "" → up '_' = '_' →
      HasSuffix (EnvVarNameFromPrefix up P "") "_" = true ∧
      ∀ G, EnvVarNameFromPrefix up P G =
        EnvVarNameFromPrefix up P "" ++ EnvVarNameFromPrefix up "" G) ∧
    EnvVarNameFromPrefix up "" F = ToUpper up (ReplaceAll F "-" "_") ∧
    EnvVarNameFromPrefix up "" F = specUpper up (specHyphens F) := by
  have hempty : EnvVarNameFromPrefix up "" F = specUpper up (specHyphens F) := by
    apply String.ext
    have he : ("" : String).data = [] := rfl
    rw [EnvVarNameFromPrefix_data, specNormalize_empty, he]
    simp [specUpper, specHyphens]
  refine ⟨EnvVarNameFromPrefix_split up P F, ?_, ?_, hempty⟩
  · intro hne hsep
    refine ⟨?_, fun G => EnvVarNameFromPrefix_split up P G⟩
    have he : ("" : String).data = [] := rfl
    rw [HasSuffix_underscore, EnvVarNameFromPrefix_data, he, List.append_nil,
      List.getLast?_map, specNormalize_getLast P hne]
    simp [hsep]
  · rw [hempty, ReplaceAll_hyphen]
    rfl

/-- Witness of C17: the prefix `app` under the ASCII rune table. -/
theorem C17_split_at_prefix_boundary_witness :
    EnvVarNameFromPrefix Char.toUpper "app" "" = "APP_" ∧
    HasSuffix (EnvVarNameFromPrefix Char.toUpper "app" "") "_" = true ∧
    EnvVarNameFromPrefix Char.toUpper "app" "log-level" =
      EnvVarNameFromPrefix Char.toUpper "app" "" ++
        EnvVarNameFromPrefix Char.toUpper "" "log-level" :=
  have h := (C17_split_at_prefix_boundary Char.toUpper "app" "host").2.1 (by decide)
    (by decide)
  ⟨by decide, h.1, h.2 "log-level"⟩

/-- C19: the trailing-separator check is made before the hyphen replacement. For
every prefix `Q ++ "-"` (such as `app-`) and every flag name `F`, under a rune table
that agrees with ASCII upper-casing on ASCII runes, the derived name is the derived
form of `Q`, then `__`, then the derived flag name (`app-`, `host` gives
`APP__HOST`); and under every rune table it differs from the names derived with the
prefixes `Q ++ "_"` and `Q`. -/
theorem C19_double_separator (up : Char → Char) (Q F : String) :
    EnvVarNameFromPrefix up (Q ++ "-") F ≠ EnvVarNameFromPrefix up (Q ++ "_") F ∧
    EnvVarNameFromPrefix up (Q ++ "-") F ≠ EnvVarNameFromPrefix up Q F ∧
    ((∀ c : Char, c.toNat < 128 → up c = c.toUpper) →
      EnvVarNameFromPrefix up (Q ++ "-") F =
        specUpper up (specHyphens Q) ++ "__" ++ EnvVarNameFromPrefix up "" F ∧
      EnvVarNameFromPrefix up "app-" "host" = "APP__HOST" ∧
      EnvVarNameFromPrefix up "app_" "host" = "APP_HOST" ∧
      EnvVarNameFromPrefix up "app" "host" = "APP_HOST") := by
  have hlen : (EnvVarNameFromPrefix up (Q ++ "-") F).data.length =
      Q.data.length + 2 + F.data.length := by
    rw [EnvVarNameFromPrefix_data, specNormalize_hyphen]
    simp only [List.length_map, List.length_append, List.length_cons, List.length_nil]
  have hlenQ : (EnvVarNameFromPrefix up Q F).data.length ≤
      Q.data.length + 1 + F.data.length := by
    rw [EnvVarNameFromPrefix_data]
    have := specNormalize_length_le Q
    simp only [List.length_map, List.length_append]
    omega
  have hlenU : (EnvVarNameFromPrefix up (Q ++ "_") F).data.length =
      Q.data.length + 1 + F.data.length := by
    have hd : (Q ++ "_").data = Q.data ++ ['_'] := by
      rw [String.data_append]
    have hn : specNormalize (Q ++ "_") = Q ++ "_" := by
      unfold specNormalize
      rw [if_neg]
      rw [hd, List.getLast?_concat]
      exact fun h => h.2 rfl
    rw [EnvVarNameFromPrefix_data, hn, hd]
    simp only [List.length_map, List.length_append, List.length_cons, List.length_nil]
  refine ⟨?_, ?_, ?_⟩
  · intro h
    rw [h, hlenU] at hlen
    omega
  · intro h
    rw [h] at hlen
    omega
  · intro hup
    refine ⟨?_, ?_, ?_, ?_⟩
    · have hsep : up '_' = '_' := by rw [hup '_' (by decide)]; decide
      have he : ("" : String).data = [] := rfl
      have hu : ("__" : String).data = ['_', '_'] := rfl
      apply String.ext
      rw [String.data_append, String.data_append, EnvVarNameFromPrefix_data,
        EnvVarNameFromPrefix_data, specNormalize_hyphen, specNormalize_empty, he, hu]
      simp [specUpper, specHyphens, hsep]
    · rw [EnvVarNameFromPrefix_ascii up hup _ _ (by decide) (by decide)]; decide
    · rw [EnvVarNameFromPrefix_ascii up hup _ _ (by decide) (by decide)]; decide
    · rw [EnvVarNameFromPrefix_ascii up hup _ _ (by decide) (by decide)]; decide

/-- Witness of C19: `app-` and `host` under the ASCII rune table. -/
theorem C19_double_separator_witness :
    EnvVarNameFromPrefix Char.toUpper "app-" "host" = "APP__HOST" ∧
    EnvVarNameFromPrefix Char.toUpper "app_" "host" = "APP_HOST" ∧
    EnvVarNameFromPrefix Char.toUpper "app" "host" = "APP_HOST" ∧
    EnvVarNameFromPrefix Char.toUpper ("app" ++ "-") "host" =
      specUpper Char.toUpper (specHyphens "app") ++ "__" ++
        EnvVarNameFromPrefix Char.toUpper "" "host" :=
  have h := (C19_double_separator Char.toUpper "app" "host").2.2 (fun _ _ => rfl)
  ⟨h.2.1, h.2.2.1, h.2.2.2, h.1⟩

/-! ## Letter case -/

/-- The ASCII rune table either leaves a rune alone or maps a small letter to a
capital letter. -/
theorem Char_toUpper_cases (c : Char) :
    (c.toUpper = c ∧ ¬ (97 ≤ c.toNat ∧ c.toNat ≤ 122)) ∨
    (97 ≤ c.toNat ∧ c.toNat ≤ 122 ∧ 65 ≤ c.toUpper.toNat ∧ c.toUpper.toNat ≤ 90) := by
  by_cases h : 97 ≤ c.toNat ∧ c.toNat ≤ 122
  · right
    refine ⟨h.1, h.2, ?_⟩
    have hc : c = Char.ofNat c.toNat := (Char.ofNat_toNat c).symm
    obtain ⟨h1, h2⟩ := h
    generalize c.toNat = n at hc h1 h2
    subst hc
    interval_cases n <;> decide
  · left
    refine ⟨?_, h⟩
    unfold Char.toUpper
    simp only [ge_iff_le]
    rw [if_neg h]

theorem Char_toUpper_idem (c : Char) : c.toUpper.toUpper = c.toUpper := by
  rcases Char_toUpper_cases c with h | h
  · rw [h.1, h.1]
  · rcases Char_toUpper_cases c.toUpper with h2 | h2
    · exact h2.1
    · omega

theorem Char_toUpper_hyphen (c : Char) (h : c.toUpper = '-') : c = '-' := by
  rcases Char_toUpper_cases c with h1 | h1
  · rw [← h1.1, h]
  · have h2 : c.toUpper.toNat = 45 := by rw [h]; rfl
    omega

/-- Under an idempotent rune table that maps no other rune to `-`, no rune of a
derived name is changed by upper-casing, and none is `-`. -/
theorem EnvVarNameFromPrefix_mem (up : Char → Char) (hidem : ∀ c, up (up c) = up c)
    (hhy : ∀ c, up c = '-' → c = '-') (P F : String) (c : Char)
    (hc : c ∈ (EnvVarNameFromPrefix up P F).data) : up c = c ∧ c ≠ '-' := by
  rw [EnvVarNameFromPrefix_data, List.mem_map] at hc
  obtain ⟨d, _, rfl⟩ := hc
  refine ⟨hidem _, ?_⟩
  intro h
  have h2 := hhy _ h
  split at h2
  · exact absurd h2 (by decide)
  · contradiction

theorem caseVariant_cons (up : Char → Char) (c d : Char) (cs ds : List Char) :
    caseVariant up (c :: cs) (d :: ds) = true ↔
      (c = d ∨ (up c = up d ∧ c ≠ '-' ∧ c ≠ '_' ∧ d ≠ '-' ∧ d ≠ '_')) ∧
        caseVariant up cs ds = true := by
  simp [caseVariant, and_assoc]

theorem caseVariant_append (up : Char → Char) (a b c d : List Char)
    (hab : caseVariant up a b = true) (hcd : caseVariant up c d = true) :
    caseVariant up (a ++ c) (b ++ d) = true := by
  induction a generalizing b with
  | nil =>
    cases b with
    | nil => simpa using hcd
    | cons y ys => simp [caseVariant] at hab
  | cons x xs ih =>
    cases b with
    | nil => simp [caseVariant] at hab
    | cons y ys =>
      rw [caseVariant_cons] at hab
      rw [List.cons_append, List.cons_append, caseVariant_cons]
      exact ⟨hab.1, ih ys hab.2⟩

theorem caseVariant_refl (up : Char → Char) (a : List Char) : caseVariant up a a = true := by
  induction a with
  | nil => rfl
  | cons x xs ih =>
    rw [caseVariant_cons]
    exact ⟨Or.inl rfl, ih⟩

theorem caseVariant_nil_iff (up : Char → Char) (a b : List Char)
    (hab : caseVariant up a b = true) : a = [] ↔ b = [] := by
  cases a <;> cases b <;> simp_all [caseVariant]

theorem caseVariant_getLast (up : Char → Char) (a b : List Char)
    (hab : caseVariant up a b = true) :
    a.getLast? = some '_' ↔ b.getLast? = some '_' := by
  induction a generalizing b with
  | nil =>
    cases b with
    | nil => rfl
    | cons y ys => simp [caseVariant] at hab
  | cons x xs ih =>
    cases b with
    | nil => simp [caseVariant] at hab
    | cons y ys =>
      rw [caseVariant_cons] at hab
      cases xs with
      | nil =>
        cases ys with
        | nil =>
          simp only [List.getLast?_singleton, Option.some.injEq]
          rcases hab.1 with h | h
          · rw [h]
          · exact ⟨fun e => absurd e h.2.2.1, fun e => absurd e h.2.2.2.2⟩
        | cons y2 ys2 => simp [caseVariant] at hab
      | cons x2 xs2 =>
        cases ys with
        | nil => simp [caseVariant] at hab
        | cons y2 ys2 =>
          rw [List.getLast?_cons_cons, List.getLast?_cons_cons]
          exact ih _ hab.2

theorem caseVariant_map (up : Char → Char) (a b : List Char)
    (hab : caseVariant up a b = true) :
    a.map (fun c => up (if c = '-' then '_' else c)) =
      b.map (fun c => up (if c = '-' then '_' else c)) := by
  induction a generalizing b with
  | nil =>
    cases b with
    | nil => rfl
    | cons y ys => simp [caseVariant] at hab
  | cons x xs ih =>
    cases b with
    | nil => simp [caseVariant] at hab
    | cons y ys =>
      rw [caseVariant_cons] at hab
      rw [List.map_cons, List.map_cons, ih ys hab.2]
      congr 1
      rcases hab.1 with h | h
      · rw [h]
      · rw [if_neg h.2.1, if_neg h.2.2.2.1]
        exact h.1

theorem caseVariant_normalize (up : Char → Char) (P P2 : String)
    (hP : caseVariant up P.data P2.data = true) :
    caseVariant up (specNormalize P).data (specNormalize P2).data = true := by
  have h1 := caseVariant_nil_iff up _ _ hP
  have h2 := caseVariant_getLast up _ _ hP
  unfold specNormalize
  by_cases hc : P.data ≠ [] ∧ P.data.getLast? ≠ some '_'
  · have hc2 : P2.data ≠ [] ∧ P2.data.getLast? ≠ some '_' :=
      ⟨fun h => hc.1 (h1.2 h), fun h => hc.2 (h2.2 h)⟩
    rw [if_pos hc, if_pos hc2]
    exact caseVariant_append up _ _ _ _ hP (caseVariant_refl up _)
  · have hc2 : ¬ (P2.data ≠ [] ∧ P2.data.getLast? ≠ some '_') :=
      fun h => hc ⟨fun e => h.1 (h1.1 e), fun e => h.2 (h2.1 e)⟩
    rw [if_neg hc, if_neg hc2]
    exact hP

/-- A rune is left alone, or it is a small letter and its image is a capital. -/
theorem toUpperLatin1_cases (c : Char) :
    toUpperLatin1 c = c ∨
    ((65 ≤ (toUpperLatin1 c).toNat ∧ (toUpperLatin1 c).toNat ≤ 90) ∨
      (toUpperLatin1 c).toNat = 924 ∨
      (192 ≤ (toUpperLatin1 c).toNat ∧ (toUpperLatin1 c).toNat ≤ 222) ∨
      (toUpperLatin1 c).toNat = 376) := by
  have hc : c = Char.ofNat c.toNat := (Char.ofNat_toNat c).symm
  by_cases h1 : 97 ≤ c.toNat ∧ c.toNat ≤ 122
  · right; left
    obtain ⟨ha, hb⟩ := h1
    generalize c.toNat = n at hc ha hb
    subst hc
    interval_cases n <;> decide
  · by_cases h2 : c.toNat = 181
    · right; right; left
      generalize c.toNat = n at hc h2
      subst hc
      subst h2
      decide
    · by_cases h3 : (224 ≤ c.toNat ∧ c.toNat ≤ 246) ∨ (248 ≤ c.toNat ∧ c.toNat ≤ 254)
      · right; right; right; left
        have hb : 224 ≤ c.toNat ∧ c.toNat ≤ 254 ∧ c.toNat ≠ 247 := by omega
        obtain ⟨ha, hb, hne⟩ := hb
        generalize c.toNat = n at hc ha hb hne
        subst hc
        interval_cases n <;> first | decide | exact absurd rfl hne
      · by_cases h4 : c.toNat = 255
        · right; right; right; right
          generalize c.toNat = n at hc h4
          subst hc
          subst h4
          decide
        · left
          unfold toUpperLatin1
          rw [if_neg h1, if_neg h2, if_neg h3, if_neg h4]

theorem toUpperLatin1_fix (c : Char)
    (h : ¬ (97 ≤ c.toNat ∧ c.toNat ≤ 122) ∧ c.toNat ≠ 181 ∧
      ¬ ((224 ≤ c.toNat ∧ c.toNat ≤ 246) ∨ (248 ≤ c.toNat ∧ c.toNat ≤ 254)) ∧
      c.toNat ≠ 255) : toUpperLatin1 c = c := by
  unfold toUpperLatin1
  rw [if_neg h.1, if_neg h.2.1, if_neg h.2.2.1, if_neg h.2.2.2]

theorem toUpperLatin1_idem (c : Char) : toUpperLatin1 (toUpperLatin1 c) = toUpperLatin1 c := by
  rcases toUpperLatin1_cases c with h | h
  · rw [h, h]
  · apply toUpperLatin1_fix
    omega

theorem toUpperLatin1_hyphen (c : Char) (h : toUpperLatin1 c = '-') : c = '-' := by
  rcases toUpperLatin1_cases c with h1 | h1
  · rw [← h1, h]
  · have h2 : (toUpperLatin1 c).toNat = 45 := by rw [h]; rfl
    omega

/-- C13, as stated, fails: with the prefix `é` and the flag name `café-ß` the output
is `É_CAFÉ_ß`. It contains the lowercase letter `ß`, which has no upper case:
upper-casing leaves it as it is. -/
theorem C13_counterexample_sharp_s :
    EnvVarNameFromPrefix toUpperLatin1 "é" "café-ß" = "É_CAFÉ_ß" ∧
    'ß' ∈ (EnvVarNameFromPrefix toUpperLatin1 "é" "café-ß").data ∧
    isLowerLatin1 'ß' = true ∧
    toUpperLatin1 'ß' = 'ß' ∧
    (EnvVarNameFromPrefix toUpperLatin1 "é" "café-ß").data.any isLowerLatin1 = true := by
  decide

/-- C13 (amended): for every prefix `P` and flag name `F`, and every rune table that
is idempotent and maps no other rune to `-`: no rune of the output of
`EnvVarNameFromPrefix(P)(F)` is changed by upper-casing (upper-casing the output
returns it unchanged), the output contains no `-`, and the output is the same for
every `P2`, `F2` obtained from `P`, `F` by replacing runes other than `-` and `_` by
runes with the same upper case. -/
theorem C13_output_fully_uppercase (up : Char → Char)
    (hidem : ∀ c, up (up c) = up c) (hhy : ∀ c, up c = '-' → c = '-')
    (P F P2 F2 : String) (hP : caseVariant up P.data P2.data = true)
    (hF : caseVariant up F.data F2.data = true) :
    (∀ c ∈ (EnvVarNameFromPrefix up P F).data, up c = c) ∧
    ToUpper up (EnvVarNameFromPrefix up P F) = EnvVarNameFromPrefix up P F ∧
    '-' ∉ (EnvVarNameFromPrefix up P F).data ∧
    EnvVarNameFromPrefix up P2 F2 = EnvVarNameFromPrefix up P F := by
  have hmem := EnvVarNameFromPrefix_mem up hidem hhy P F
  refine ⟨fun c hc => (hmem c hc).1, ?_, fun h => (hmem _ h).2 rfl, ?_⟩
  · apply String.ext
    unfold ToUpper
    exact (List.map_congr_left (fun c hc => (hmem c hc).1)).trans (List.map_id _)
  · apply String.ext
    rw [EnvVarNameFromPrefix_data, EnvVarNameFromPrefix_data]
    exact (caseVariant_map up _ _
      (caseVariant_append up _ _ _ _ (caseVariant_normalize up P P2 hP) hF)).symm

/-- Witness of C13 (amended): the Latin-1 rune table, `é` against `É` and `café-ß`
against `CAFÉ-ß`. -/
theorem C13_output_fully_uppercase_witness :
    EnvVarNameFromPrefix toUpperLatin1 "é" "café-ß" = "É_CAFÉ_ß" ∧
    ToUpper toUpperLatin1 (EnvVarNameFromPrefix toUpperLatin1 "é" "café-ß") =
      EnvVarNameFromPrefix toUpperLatin1 "é" "café-ß" ∧
    '-' ∉ (EnvVarNameFromPrefix toUpperLatin1 "é" "café-ß").data ∧
    EnvVarNameFromPrefix toUpperLatin1 "É" "CAFÉ-ß" =
      EnvVarNameFromPrefix toUpperLatin1 "é" "café-ß" :=
  have h := C13_output_fully_uppercase toUpperLatin1 toUpperLatin1_idem
    toUpperLatin1_hyphen "é" "café-ß" "É" "CAFÉ-ß" (by decide) (by decide)
  ⟨by decide, h.2.1, h.2.2.1, h.2.2.2⟩

/-- C14: name derivation is idempotent under re-derivation. For every rune table that
is idempotent and maps no other rune to `-`, and every prefix `P` and flag name `F`,
`EnvVarNameFromPrefix("")(EnvVarNameFromPrefix(P)(F)) = EnvVarNameFromPrefix(P)(F)`. -/
theorem C14_rederivation_idempotent (up : Char → Char)
    (hidem : ∀ c, up (up c) = up c) (hhy : ∀ c, up c = '-' → c = '-') (P F : String) :
    EnvVarNameFromPrefix up "" (EnvVarNameFromPrefix up P F) =
      EnvVarNameFromPrefix up P F := by
  have hmem := EnvVarNameFromPrefix_mem up hidem hhy P F
  apply String.ext
  have he : ("" : String).data = [] := rfl
  rw [EnvVarNameFromPrefix_data up "", specNormalize_empty, he, List.nil_append]
  refine (List.map_congr_left ?_).trans (List.map_id _)
  intro c hc
  rw [if_neg (hmem c hc).2]
  exact (hmem c hc).1

/-- Witness of C14: the ASCII rune table, prefix `app` and flag `log-level`. -/
theorem C14_rederivation_idempotent_witness :
    EnvVarNameFromPrefix Char.toUpper "app" "log-level" = "APP_LOG_LEVEL" ∧
    EnvVarNameFromPrefix Char.toUpper ""
        (EnvVarNameFromPrefix Char.toUpper "app" "log-level") =
      EnvVarNameFromPrefix Char.toUpper "app" "log-level" :=
  ⟨by decide,
    C14_rederivation_idempotent Char.toUpper Char_toUpper_idem Char_toUpper_hyphen
      "app" "log-level"⟩

/-- C18: name derivation is not injective in the flag name. For every rune table and
prefix the distinct names `log-level` and `log_level` derive the same variable name,
and so do `host` and `Host` when the table agrees with ASCII upper-casing on ASCII
runes; and when two distinct unset flags of one registry derive the same name and that
variable is present with value `v`, a successful `SetFlagsInFlagSet` has called
`fs.Set` with `v` on both, both are explicitly set, and each one that shares its
variable with no other unset flag whose variable is present holds the value its
setter produces from `v`. -/
theorem C18_derivation_not_injective (up : Char → Char) (P : String) :
    ("log-level" : String) ≠ "log_level" ∧
    EnvVarNameFromPrefix up P "log-level" = EnvVarNameFromPrefix up P "log_level" ∧
    ((∀ c : Char, c.toNat < 128 → up c = c.toUpper) →
      ("host" : String) ≠ "Host" ∧
      EnvVarNameFromPrefix up P "host" = EnvVarNameFromPrefix up P "Host") ∧
    (∀ (V E : Type) (env : String → Option String) (iter : List String → List String)
      (fs : FlagSet V E) (F1 F2 v : String) (f1 f2 : Flag V E),
      (∀ m : List String, (iter m).Perm m) → F1 ≠ F2 →
      lookupFlag F1 fs.formal = some f1 → lookupFlag F2 fs.formal = some f2 →
      fs.isSet F1 = false → fs.isSet F2 = false →
      EnvVarNameFromPrefix up P F1 = EnvVarNameFromPrefix up P F2 →
      env (EnvVarNameFromPrefix up P F1) = some v →
      (SetFlagsInFlagSet up env iter fs P).err = none →
      Event.SetFlag F1 v ∈ (SetFlagsInFlagSet up env iter fs P).trace ∧
      Event.SetFlag F2 v ∈ (SetFlagsInFlagSet up env iter fs P).trace ∧
      (SetFlagsInFlagSet up env iter fs P).fs.isSet F1 = true ∧
      (SetFlagsInFlagSet up env iter fs P).fs.isSet F2 = true ∧
      (ownStorage env (EnvVarNameFromPrefix up P) fs F1 = true →
        (SetFlagsInFlagSet up env iter fs P).fs.valueOf F1 =
          some ((f1.valueSet v).1 (fs.vars f1.ptr))) ∧
      (ownStorage env (EnvVarNameFromPrefix up P) fs F2 = true →
        (SetFlagsInFlagSet up env iter fs P).fs.valueOf F2 =
          some ((f2.valueSet v).1 (fs.vars f2.ptr)))) := by
  refine ⟨by decide, ?_, ?_, ?_⟩
  · rw [EnvVarNameFromPrefix_split up P "log-level",
      EnvVarNameFromPrefix_split up P "log_level"]
    have h : EnvVarNameFromPrefix up "" "log-level" =
        EnvVarNameFromPrefix up "" "log_level" := by
      rw [EnvVarNameFromPrefix_eq_spec, EnvVarNameFromPrefix_eq_spec]
      rfl
    rw [h]
  · intro hup
    refine ⟨by decide, ?_⟩
    rw [EnvVarNameFromPrefix_split up P "host", EnvVarNameFromPrefix_split up P "Host",
      EnvVarNameFromPrefix_ascii up hup "" "host" (by decide) (by decide),
      EnvVarNameFromPrefix_ascii up hup "" "Host" (by decide) (by decide)]
    have h : EnvVarNameFromPrefix Char.toUpper "" "host" =
        EnvVarNameFromPrefix Char.toUpper "" "Host" := by decide
    rw [h]
  · intro V E env iter fs F1 F2 v f1 f2 hiter _ hf1 hf2 hu1 hu2 hsame hv hok
    have hv2 : env (EnvVarNameFromPrefix up P F2) = some v := hsame ▸ hv
    have h1 := SetFlagsInFlagSet_success_set up env iter hiter fs P hok F1 v f1 hf1 hu1 hv
    have h2 := SetFlagsInFlagSet_success_set up env iter hiter fs P hok F2 v f2 hf2 hu2 hv2
    have hm1 := (mem_iter_unset iter hiter fs F1).2 ⟨⟨f1, hf1⟩, hu1⟩
    have hm2 := (mem_iter_unset iter hiter fs F2).2 ⟨⟨f2, hf2⟩, hu2⟩
    refine ⟨rangeUnset_trace env _ _ fs hok F1 hm1 v hv,
      rangeUnset_trace env _ _ fs hok F2 hm2 v hv2, ?_, ?_, ?_, ?_⟩
    · unfold FlagSet.isSet
      simpa using h1.2
    · unfold FlagSet.isSet
      simpa using h2.2
    · intro hown
      rw [SetFlagsInFlagSet_valueOf up env iter fs P F1 f1 hf1,
        SetFlagsInFlagSet_vars_visited up env iter hiter fs P hok F1 v f1 hf1 hu1 hv hown]
    · intro hown
      rw [SetFlagsInFlagSet_valueOf up env iter fs P F2 f2 hf2,
        SetFlagsInFlagSet_vars_visited up env iter hiter fs P hok F2 v f2 hf2 hu2 hv2 hown]

/-- Witness of C18: the unset string flags `log-level` and `log_level` are both set
to `debug` from the one variable `LOG_LEVEL`. -/
theorem C18_derivation_not_injective_witness :
    EnvVarNameFromPrefix Char.toUpper "" "log-level" = "LOG_LEVEL" ∧
    EnvVarNameFromPrefix Char.toUpper "" "log_level" = "LOG_LEVEL" ∧
    EnvVarNameFromPrefix Char.toUpper "" "host" =
      EnvVarNameFromPrefix Char.toUpper "" "Host" ∧
    (SetFlagsInFlagSet Char.toUpper envCollide id fsCollide "").fs.valueOf "log-level" =
      some (.string "debug") ∧
    (SetFlagsInFlagSet Char.toUpper envCollide id fsCollide "").fs.valueOf "log_level" =
      some (.string "debug") ∧
    (SetFlagsInFlagSet Char.toUpper envCollide id fsCollide "").fs.isSet "log-level" =
      true ∧
    (SetFlagsInFlagSet Char.toUpper envCollide id fsCollide "").fs.isSet "log_level" =
      true :=
  have h := C18_derivation_not_injective Char.toUpper ""
  have hs := h.2.2.2 GoValue FlagError envCollide id fsCollide "log-level" "log_level"
    "debug" (stringFlag 0 "log-level") (stringFlag 1 "log_level")
    (fun _ => List.Perm.refl _) (by decide) rfl rfl (by decide) (by decide) (by decide)
    (by decide) (by decide)
  ⟨by decide, by decide, (h.2.2.1 (fun _ _ => rfl)).2,
    (hs.2.2.2.2.1 (by decide)).trans (by decide),
    (hs.2.2.2.2.2 (by decide)).trans (by decide), hs.2.2.1, hs.2.2.2.1⟩

end Setfromenv
